import Mathlib

/-!
Verification of the cs251simulator core: a shallow embedding of the
simulator's data model (registers, sparse memory, instructions), the
parse/validate pipeline, and the fetch-decode-execute step (`tick`),
together with theorems settling the specification's claims.

Machine integers are modelled as `Nat` (for `u64` values) and `Int`
(for `i128` values), with wraparound expressed by explicit reduction
modulo `2 ^ 64`.
-/

deriving instance DecidableEq for Except

namespace Sim

/-- The two runtime failure kinds of the simulator: an out-of-range
register index (`Registers::get`/`set`) and a misaligned byte address
(`Memory::get`/`set`). -/
inductive ExecError where
  | register (idx : Nat)
  | alignment (addr : Nat)
deriving DecidableEq, Repr

/-- Reduce a signed value into the unsigned 64-bit range; embeds the
Rust pattern `(x & u64::MAX as i128) as u64` (masking the low 64 bits
of an `i128`, which coincides with the mathematical residue). -/
def wrap64 (x : Int) : Nat := (x % (18446744073709551616 : Int)).toNat

/-- Embeds the Rust cast `lit as u64` of an `i128` literal (two's
complement truncation to 64 bits). -/
def toU64 (x : Int) : Nat := (x % (18446744073709551616 : Int)).toNat

/-- Embeds `Registers` from `src/simulator/registers.rs`: 31 general
purpose `u64` slots (the Rust array `[u64; 31]`, here a list) plus the
program counter. -/
structure Registers where
  registers : List Nat
  pc : Nat
deriving DecidableEq, Repr

/-- Embeds `Registers::new`. -/
def Registers.new : Registers := ⟨List.replicate 31 0, 0⟩

/-- Embeds `Registers::get`: indices `0..31` read the array, index 31
is the hardwired zero register, anything larger is a `RegisterError`. -/
def Registers.get (r : Registers) (idx : Nat) : Except ExecError Nat :=
  if idx < 31 then .ok (r.registers.getD idx 0)
  else if idx = 31 then .ok 0
  else .error (.register idx)

/-- Embeds `Registers::set`: indices `0..31` write the array, index 31
discards the write, anything larger is a `RegisterError`. -/
def Registers.set (r : Registers) (idx : Nat) (val : Nat) : Except ExecError Registers :=
  if idx < 31 then .ok { r with registers := r.registers.set idx val }
  else if idx = 31 then .ok r
  else .error (.register idx)

/-- Embeds `Memory` from `src/simulator/memory.rs`: a sparse map from
word-slot index (byte address divided by 8) to a `u64` value.  The
Rust `HashMap` is modelled as an association list. -/
structure Memory where
  memory : List (Nat × Nat)
deriving DecidableEq, Repr

/-- Embeds `Memory::new`. -/
def Memory.new : Memory := ⟨[]⟩

/-- Embeds `Memory::get`: misaligned byte addresses fail with an
`AlignmentError`; otherwise the slot's value, defaulting to 0 when the
slot is absent. -/
def Memory.get (m : Memory) (byteAddr : Nat) : Except ExecError Nat :=
  if byteAddr % 8 ≠ 0 then .error (.alignment byteAddr)
  else .ok ((List.lookup (byteAddr / 8) m.memory).getD 0)

/-- Embeds `Memory::set`: misaligned byte addresses fail with an
`AlignmentError`; storing 0 removes the slot, storing a non-zero value
replaces it (the `HashMap` insert is modelled by removing any entry at
the key and consing the new one). -/
def Memory.set (m : Memory) (byteAddr val : Nat) : Except ExecError Memory :=
  if byteAddr % 8 ≠ 0 then .error (.alignment byteAddr)
  else
    let idx := byteAddr / 8
    if val = 0 then .ok ⟨m.memory.filter (fun p => p.1 != idx)⟩
    else .ok ⟨(idx, val) :: m.memory.filter (fun p => p.1 != idx)⟩

/-- Embeds `Memory::get_used`: the occupied word-slot indices. -/
def Memory.get_used (m : Memory) : List Nat := m.memory.map Prod.fst

/-- Embeds `Offset` from `src/simulator/instruction.rs`: a base
register index (`u8`) and a signed displacement (`i128`). -/
structure Offset where
  reg : Nat
  lit : Int
deriving DecidableEq, Repr

/-- Embeds the `Instruction` enum from `src/simulator/instruction.rs`. -/
inductive Instruction where
  | Add (r0 r1 r2 : Nat)
  | Sub (r0 r1 r2 : Nat)
  | AddI (r0 r1 : Nat) (lit : Int)
  | SubI (r0 r1 : Nat) (lit : Int)
  | Load (r0 : Nat) (off : Offset)
  | Store (r0 : Nat) (off : Offset)
  | Branch (lit : Int)
  | BranchZero (r0 : Nat) (lit : Int)
  | BranchNotZero (r0 : Nat) (lit : Int)
  | None
  | Comment (s : String)
deriving DecidableEq, Repr

/-- Embeds `Instruction::validate`: per-opcode immediate range checks;
a failed check is the `RangeError` (`bail!`), modelled as `none`. -/
def Instruction.validate (i : Instruction) : Option Instruction :=
  match i with
  | .AddI _ _ lit | .SubI _ _ lit =>
      if lit < 0 ∨ lit ≥ 4096 then none else some i
  | .Load _ ⟨_, off⟩ | .Store _ ⟨_, off⟩ =>
      if off < -256 ∨ off > 255 then none else some i
  | .Branch off =>
      if off < -33554432 ∨ off > 33554431 then none else some i
  | .BranchZero _ off | .BranchNotZero _ off =>
      if off < -262144 ∨ off > 262143 then none else some i
  | _ => some i

/-- Embeds `RunningState` from `src/simulator/mod.rs`. -/
inductive RunningState where
  | KeepRunning
  | ShouldStop
deriving DecidableEq, Repr

/-- Embeds the `Simulator` aggregate from `src/simulator/mod.rs`. -/
structure Simulator where
  registers : Registers
  memory : Memory
  instructions : List Instruction
deriving DecidableEq, Repr

/-- Embeds the PC commit at the end of `Simulator::tick`:
`new_pc = (pc as i128 + pc_diff) & u64::MAX` written back. -/
def commitPC (s : Simulator) (d : Int) : Simulator :=
  { s with registers := { s.registers with pc := wrap64 ((s.registers.pc : Int) + d) } }

/-- The decode-execute `match` of `Simulator::tick`, in the `Except`
monad: `←` is the Rust `?` operator.  No arm of the source mutates
state before a fallible call, so an error here means the machine state
is unchanged (see `Simulator.tick`). -/
def tickStep (s : Simulator) (instr : Instruction) : Except ExecError (RunningState × Simulator) :=
  match instr with
    | .Add r0 r1 r2 => do
        let vr1 ← s.registers.get r1
        let vr2 ← s.registers.get r2
        let regs ← s.registers.set r0 ((vr1 + vr2) % 18446744073709551616)
        pure (.KeepRunning, commitPC { s with registers := regs } 1)
    | .Sub r0 r1 r2 => do
        let vr1 ← s.registers.get r1
        let vr2 ← s.registers.get r2
        let regs ← s.registers.set r0 (wrap64 ((vr1 : Int) - (vr2 : Int)))
        pure (.KeepRunning, commitPC { s with registers := regs } 1)
    | .AddI r0 r1 lit => do
        let vr1 ← s.registers.get r1
        let regs ← s.registers.set r0 ((vr1 + toU64 lit) % 18446744073709551616)
        pure (.KeepRunning, commitPC { s with registers := regs } 1)
    | .SubI r0 r1 lit => do
        let vr1 ← s.registers.get r1
        let regs ← s.registers.set r0 (wrap64 ((vr1 : Int) - (toU64 lit : Int)))
        pure (.KeepRunning, commitPC { s with registers := regs } 1)
    | .Load r0 ⟨r1, off⟩ => do
        let addr ← s.registers.get r1
        let truncated := wrap64 ((addr : Int) + off)
        let val ← s.memory.get truncated
        let regs ← s.registers.set r0 val
        pure (.KeepRunning, commitPC { s with registers := regs } 1)
    | .Store r0 ⟨r1, off⟩ => do
        let addr ← s.registers.get r1
        let truncated := wrap64 ((addr : Int) + off)
        let val ← s.registers.get r0
        let mem ← s.memory.set truncated val
        pure (.KeepRunning, commitPC { s with memory := mem } 1)
    | .Branch off =>
        pure (.KeepRunning, commitPC s off)
    | .BranchZero r0 off => do
        let val ← s.registers.get r0
        if val = 0 then pure (.KeepRunning, commitPC s off)
        else pure (.KeepRunning, commitPC s 1)
    | .BranchNotZero r0 off => do
        let val ← s.registers.get r0
        if val ≠ 0 then pure (.KeepRunning, commitPC s off)
        else pure (.KeepRunning, commitPC s 1)
    | .None => pure (.ShouldStop, s)
    | .Comment _ => pure (.ShouldStop, s)

/-- The fetch phase of `Simulator::tick`: out-of-range PC stops with
no mutation, otherwise the fetched instruction is executed. -/
def tickE (s : Simulator) : Except ExecError (RunningState × Simulator) :=
  if h : s.registers.pc < s.instructions.length then
    tickStep s (s.instructions[s.registers.pc])
  else pure (.ShouldStop, s)

/-- Embeds `Simulator::tick`.  The Rust method mutates `self` in
place and returns a `Result`; here the post-state is returned
alongside.  On the error path the source returns early before any
mutation, so the post-state is the input state. -/
def Simulator.tick (s : Simulator) : Except ExecError RunningState × Simulator :=
  match tickE s with
  | .ok (rs, s1) => (.ok rs, s1)
  | .error e => (.error e, s)

/-! ### Basic lemmas about the register file and memory -/

/-- Reading any index up to 31 always succeeds. -/
lemma Registers.get_ok_of_le (r : Registers) (idx : Nat) (h : idx ≤ 31) :
    ∃ v, r.get idx = .ok v := by
  unfold Registers.get
  rcases Nat.lt_or_ge idx 31 with h1 | h1
  · rw [if_pos h1]; exact ⟨_, rfl⟩
  · have h2 : idx = 31 := Nat.le_antisymm h h1
    subst h2
    rw [if_neg (by omega), if_pos rfl]
    exact ⟨0, rfl⟩

/-- Writing any index up to 31 always succeeds. -/
lemma Registers.set_ok_of_le (r : Registers) (idx v : Nat) (h : idx ≤ 31) :
    ∃ r2, r.set idx v = .ok r2 := by
  unfold Registers.set
  rcases Nat.lt_or_ge idx 31 with h1 | h1
  · rw [if_pos h1]; exact ⟨_, rfl⟩
  · have h2 : idx = 31 := Nat.le_antisymm h h1
    subst h2
    rw [if_neg (by omega), if_pos rfl]
    exact ⟨r, rfl⟩

/-- Reading the zero register always yields 0. -/
lemma Registers.get_31 (r : Registers) : r.get 31 = .ok 0 := by
  unfold Registers.get; simp

/-- Writing the zero register is accepted and discarded. -/
lemma Registers.set_31 (r : Registers) (v : Nat) : r.set 31 v = .ok r := by
  unfold Registers.set; simp

/-- A successful register write does not move the program counter. -/
lemma Registers.pc_set {r r2 : Registers} {idx v : Nat} (h : r.set idx v = .ok r2) :
    r2.pc = r.pc := by
  unfold Registers.set at h
  split at h
  · cases h; rfl
  · split at h
    · cases h; rfl
    · cases h

/-- A register access error names an index above 31. -/
lemma Registers.get_register_error {r : Registers} {idx : Nat} {e : ExecError}
    (h : r.get idx = .error e) : e = .register idx ∧ 31 < idx := by
  unfold Registers.get at h
  split at h
  · cases h
  · split at h
    · cases h
    · cases h; exact ⟨rfl, by omega⟩

/-- A register write error names an index above 31. -/
lemma Registers.set_register_error {r : Registers} {idx v : Nat} {e : ExecError}
    (h : r.set idx v = .error e) : e = .register idx ∧ 31 < idx := by
  unfold Registers.set at h
  split at h
  · cases h
  · split at h
    · cases h
    · cases h; exact ⟨rfl, by omega⟩

/-- A memory read error is an alignment error at the accessed address. -/
lemma Memory.get_alignment_error {m : Memory} {a : Nat} {e : ExecError}
    (h : m.get a = .error e) : e = .alignment a ∧ a % 8 ≠ 0 := by
  unfold Memory.get at h
  split at h
  · cases h; exact ⟨rfl, by assumption⟩
  · cases h

/-- A memory write error is an alignment error at the accessed address. -/
lemma Memory.set_alignment_error {m : Memory} {a v : Nat} {e : ExecError}
    (h : m.set a v = .error e) : e = .alignment a ∧ a % 8 ≠ 0 := by
  unfold Memory.set at h
  split at h
  · cases h; exact ⟨rfl, by assumption⟩
  · split at h <;> cases h

/-- `List.lookup` misses keys that are not in the key list. -/
lemma lookup_eq_none_of_not_mem {l : List (Nat × Nat)} {k : Nat}
    (h : k ∉ l.map Prod.fst) : List.lookup k l = none := by
  induction l with
  | nil => rfl
  | cons p t ih =>
      simp only [List.map_cons, List.mem_cons] at h
      push_neg at h
      simp only [List.lookup]
      have : (k == p.1) = false := by
        exact beq_eq_false_iff_ne.mpr h.1
      rw [this]
      exact ih h.2

/-! ### Claim C6: validation ranges -/

/-- The per-opcode legal immediate ranges, as the specification states
them.  Instructions with no immediate have no constraint. -/
def rangeOK (i : Instruction) : Prop :=
  match i with
  | .AddI _ _ lit | .SubI _ _ lit => 0 ≤ lit ∧ lit < 4096
  | .Load _ o | .Store _ o => -256 ≤ o.lit ∧ o.lit ≤ 255
  | .Branch off => -33554432 ≤ off ∧ off ≤ 33554431
  | .BranchZero _ off | .BranchNotZero _ off => -262144 ≤ off ∧ off ≤ 262143
  | _ => True

/-- C6.  `validate` succeeds (returning the instruction itself) exactly
when the immediate lies in its opcode's legal range — AddI/SubI in
[0, 4096), Load/Store offsets in [-256, 255], Branch in
[-33554432, 33554431], BranchZero/BranchNotZero in [-262144, 262143] —
and fails (the `RangeError`) otherwise; instructions with no immediate
always pass. -/
theorem validate_iff_rangeOK (i : Instruction) :
    (i.validate = some i ↔ rangeOK i) ∧ (i.validate = none ↔ ¬ rangeOK i) := by
  cases i <;> simp [Instruction.validate, rangeOK]

/-! ### Claim C7: register file contract -/

/-- C7.  Reads of the zero register always yield 0 and writes to it
are accepted but change nothing; `get`/`set` succeed for every index
in 0..=31 and fail with a `RegisterError` above 31; consequently after
any `tick` the zero register still reads 0. -/
theorem registers_contract :
    (∀ r : Registers, r.get 31 = .ok 0)
    ∧ (∀ (r : Registers) (v : Nat), r.set 31 v = .ok r)
    ∧ (∀ (r : Registers) (idx v : Nat), idx ≤ 31 →
        (∃ x, r.get idx = .ok x) ∧ (∃ r2, r.set idx v = .ok r2))
    ∧ (∀ (r : Registers) (idx v : Nat), 31 < idx →
        r.get idx = .error (.register idx) ∧ r.set idx v = .error (.register idx))
    ∧ (∀ (s s2 : Simulator) (res : Except ExecError RunningState),
        s.tick = (res, s2) → s2.registers.get 31 = .ok 0) := by
  refine ⟨Registers.get_31, Registers.set_31, ?_, ?_, ?_⟩
  · exact fun r idx v h => ⟨r.get_ok_of_le idx h, r.set_ok_of_le idx v h⟩
  · intro r idx v h
    constructor
    · unfold Registers.get
      rw [if_neg (by omega), if_neg (by omega)]
    · unfold Registers.set
      rw [if_neg (by omega), if_neg (by omega)]
  · intro s s2 res _
    exact s2.registers.get_31

/-- Witness for C7 at concrete inputs: index 5 is readable and
writable, index 40 errors, and after a tick that writes register 31
the zero register still reads 0. -/
theorem registers_contract_witness :
    (∃ x, Registers.new.get 5 = .ok x)
    ∧ Registers.new.get 40 = .error (.register 40)
    ∧ ({ registers := Registers.new, memory := Memory.new,
         instructions := [.AddI 31 0 7] } : Simulator).tick.2.registers.get 31 = .ok 0 :=
  ⟨(registers_contract.2.2.1 Registers.new 5 0 (by decide)).1,
   (registers_contract.2.2.2.1 Registers.new 40 0 (by decide)).1,
   registers_contract.2.2.2.2 _ _ _ Prod.mk.eta.symm⟩

/-! ### Claim C8: memory sparsity invariant -/

/-- C8.  `get`/`set` fail with an `AlignmentError` exactly on
misaligned addresses; `set a 0` removes slot `a / 8` from `get_used`;
a non-zero `set` followed by `get` round-trips; `get` on an absent
slot returns 0; and `set` preserves the invariant that no stored slot
holds 0. -/
theorem memory_contract :
    (∀ (m : Memory) (a : Nat), a % 8 ≠ 0 →
        m.get a = .error (.alignment a) ∧ ∀ v, m.set a v = .error (.alignment a))
    ∧ (∀ (m : Memory) (a : Nat), a % 8 = 0 →
        (∃ x, m.get a = .ok x) ∧ ∀ v, ∃ m2, m.set a v = .ok m2)
    ∧ (∀ (m : Memory) (a : Nat) (m2 : Memory), m.set a 0 = .ok m2 →
        a / 8 ∉ m2.get_used)
    ∧ (∀ (m : Memory) (a v : Nat) (m2 : Memory), v ≠ 0 → m.set a v = .ok m2 →
        m2.get a = .ok v)
    ∧ (∀ (m : Memory) (a : Nat), a % 8 = 0 → a / 8 ∉ m.get_used → m.get a = .ok 0)
    ∧ (∀ (m : Memory) (a v : Nat) (m2 : Memory),
        (∀ p ∈ m.memory, p.2 ≠ 0) → m.set a v = .ok m2 → ∀ p ∈ m2.memory, p.2 ≠ 0) := by
  refine ⟨?_, ?_, ?_, ?_, ?_, ?_⟩
  · intro m a h
    constructor
    · unfold Memory.get; rw [if_pos h]
    · intro v; unfold Memory.set; rw [if_pos h]
  · intro m a h
    constructor
    · unfold Memory.get; rw [if_neg (by omega)]; exact ⟨_, rfl⟩
    · intro v
      unfold Memory.set
      rw [if_neg (by omega)]
      by_cases hv : v = 0
      · rw [if_pos hv]; exact ⟨_, rfl⟩
      · rw [if_neg hv]; exact ⟨_, rfl⟩
  · intro m a m2 h
    unfold Memory.set at h
    split at h
    · cases h
    · rw [if_pos rfl] at h
      cases h
      unfold Memory.get_used
      intro hmem
      rcases List.mem_map.mp hmem with ⟨p, hp, hfst⟩
      rcases List.mem_filter.mp hp with ⟨_, hne⟩
      rw [hfst] at hne
      simp at hne
  · intro m a v m2 hv h
    unfold Memory.set at h
    split at h
    · cases h
    · cases h
      unfold Memory.get
      rw [if_neg (by omega)]
      simp [List.lookup]
  · intro m a h hused
    unfold Memory.get
    rw [if_neg (by omega)]
    rw [lookup_eq_none_of_not_mem hused]
    rfl
  · intro m a v m2 hsp h p hp
    unfold Memory.set at h
    split at h
    · cases h
    · split at h <;> cases h
      · exact hsp p (List.mem_filter.mp hp).1
      · rcases List.mem_cons.mp hp with h1 | h1
        · intro h0; rw [h1] at h0; exact (by assumption : v ≠ 0) h0
        · exact hsp p (List.mem_filter.mp h1).1

/-- Witness for C8 at concrete inputs: address 5 misaligns, a write of
3 to address 16 reads back as 3, clearing it removes slot 2, and a
never-written address reads 0. -/
theorem memory_contract_witness :
    Memory.new.get 5 = .error (.alignment 5)
    ∧ (⟨[(2, 3)]⟩ : Memory).get 16 = .ok 3
    ∧ (2 : Nat) ∉ (⟨[]⟩ : Memory).get_used
    ∧ Memory.new.get 16 = .ok 0 :=
  ⟨(memory_contract.1 Memory.new 5 (by decide)).1,
   memory_contract.2.2.2.1 Memory.new 16 3 ⟨[(2, 3)]⟩ (by decide) (by decide),
   (fun h => by
      have := memory_contract.2.2.1 (⟨[(2, 3)]⟩ : Memory) 16 ⟨[]⟩ (by decide)
      exact this (by simpa using h)),
   memory_contract.2.2.2.2.1 Memory.new 16 (by decide) (by decide)⟩

/-! ### Executing a known instruction -/

/-- When the program list holds instruction `i` at the PC, a tick
executes `i`. -/
lemma tick_eq_of_fetch {s : Simulator} {i : Instruction}
    (h : s.instructions[s.registers.pc]? = some i) :
    s.tick = (match tickStep s i with
              | .ok (rs, s1) => (Except.ok rs, s1)
              | .error e => (Except.error e, s)) := by
  rcases List.getElem?_eq_some_iff.mp h with ⟨hlt, hget⟩
  unfold Simulator.tick tickE
  rw [dif_pos hlt, hget]

/-- When the PC is past the end of the program, a tick stops with no
state change. -/
lemma tick_eq_of_pc_out {s : Simulator}
    (h : s.instructions.length ≤ s.registers.pc) :
    s.tick = (.ok .ShouldStop, s) := by
  unfold Simulator.tick tickE
  rw [dif_neg (by omega)]
  rfl

/-- Reducing a bind on a concrete `ok`. -/
lemma bindOkE {α β : Type} (a : α) (f : α → Except ExecError β) :
    (Except.ok a >>= f) = f a := rfl

/-- `pure` into `Except` is `ok`. -/
lemma pureOkE {α : Type} (a : α) : (pure a : Except ExecError α) = .ok a := rfl

/-! ### Claim C4: wraparound arithmetic -/

/-- Bridging `overflowing_add(lit as u64)` with the specification's
`(src + immediate) mod 2^64`. -/
lemma addI_bridge (v : Nat) (lit : Int) :
    (v + toU64 lit) % 18446744073709551616 = wrap64 ((v : Int) + lit) := by
  unfold toU64 wrap64
  omega

/-- Bridging `overflowing_sub(lit as u64)` with the specification's
`(src - immediate) mod 2^64`. -/
lemma subI_bridge (v : Nat) (lit : Int) :
    wrap64 ((v : Int) - (toU64 lit : Int)) = wrap64 ((v : Int) - lit) := by
  unfold toU64 wrap64
  omega

/-- C4.  With operand indices in 0..=31, `Add`/`Sub` write the 64-bit
wraparound sum/difference of the two source registers to the
destination, and `AddI`/`SubI` combine the source with the immediate
the same way; overflow never errors. -/
theorem arith_wraparound :
    (∀ (s : Simulator) (r0 r1 r2 : Nat),
        s.instructions[s.registers.pc]? = some (.Add r0 r1 r2) →
        r0 ≤ 31 → r1 ≤ 31 → r2 ≤ 31 →
        ∃ v1 v2 regs2, s.registers.get r1 = .ok v1 ∧ s.registers.get r2 = .ok v2 ∧
          s.registers.set r0 ((v1 + v2) % 18446744073709551616) = .ok regs2 ∧
          s.tick = (.ok .KeepRunning, commitPC { s with registers := regs2 } 1))
    ∧ (∀ (s : Simulator) (r0 r1 r2 : Nat),
        s.instructions[s.registers.pc]? = some (.Sub r0 r1 r2) →
        r0 ≤ 31 → r1 ≤ 31 → r2 ≤ 31 →
        ∃ v1 v2 regs2, s.registers.get r1 = .ok v1 ∧ s.registers.get r2 = .ok v2 ∧
          s.registers.set r0 (wrap64 ((v1 : Int) - (v2 : Int))) = .ok regs2 ∧
          s.tick = (.ok .KeepRunning, commitPC { s with registers := regs2 } 1))
    ∧ (∀ (s : Simulator) (r0 r1 : Nat) (lit : Int),
        s.instructions[s.registers.pc]? = some (.AddI r0 r1 lit) →
        r0 ≤ 31 → r1 ≤ 31 →
        ∃ v1 regs2, s.registers.get r1 = .ok v1 ∧
          s.registers.set r0 (wrap64 ((v1 : Int) + lit)) = .ok regs2 ∧
          s.tick = (.ok .KeepRunning, commitPC { s with registers := regs2 } 1))
    ∧ (∀ (s : Simulator) (r0 r1 : Nat) (lit : Int),
        s.instructions[s.registers.pc]? = some (.SubI r0 r1 lit) →
        r0 ≤ 31 → r1 ≤ 31 →
        ∃ v1 regs2, s.registers.get r1 = .ok v1 ∧
          s.registers.set r0 (wrap64 ((v1 : Int) - lit)) = .ok regs2 ∧
          s.tick = (.ok .KeepRunning, commitPC { s with registers := regs2 } 1)) := by
  refine ⟨?_, ?_, ?_, ?_⟩
  · intro s r0 r1 r2 hf h0 h1 h2
    rcases s.registers.get_ok_of_le r1 h1 with ⟨v1, hv1⟩
    rcases s.registers.get_ok_of_le r2 h2 with ⟨v2, hv2⟩
    rcases s.registers.set_ok_of_le r0 ((v1 + v2) % 18446744073709551616) h0 with ⟨regs2, hset⟩
    refine ⟨v1, v2, regs2, hv1, hv2, hset, ?_⟩
    rw [tick_eq_of_fetch hf]
    simp only [tickStep, hv1, hv2, bindOkE, hset, pureOkE]
  · intro s r0 r1 r2 hf h0 h1 h2
    rcases s.registers.get_ok_of_le r1 h1 with ⟨v1, hv1⟩
    rcases s.registers.get_ok_of_le r2 h2 with ⟨v2, hv2⟩
    rcases s.registers.set_ok_of_le r0 (wrap64 ((v1 : Int) - (v2 : Int))) h0 with ⟨regs2, hset⟩
    refine ⟨v1, v2, regs2, hv1, hv2, hset, ?_⟩
    rw [tick_eq_of_fetch hf]
    simp only [tickStep, hv1, hv2, bindOkE, hset, pureOkE]
  · intro s r0 r1 lit hf h0 h1
    rcases s.registers.get_ok_of_le r1 h1 with ⟨v1, hv1⟩
    rcases s.registers.set_ok_of_le r0 (wrap64 ((v1 : Int) + lit)) h0 with ⟨regs2, hset⟩
    refine ⟨v1, regs2, hv1, hset, ?_⟩
    rw [tick_eq_of_fetch hf]
    simp only [tickStep, hv1, bindOkE, pureOkE, addI_bridge, hset]
  · intro s r0 r1 lit hf h0 h1
    rcases s.registers.get_ok_of_le r1 h1 with ⟨v1, hv1⟩
    rcases s.registers.set_ok_of_le r0 (wrap64 ((v1 : Int) - lit)) h0 with ⟨regs2, hset⟩
    refine ⟨v1, regs2, hv1, hset, ?_⟩
    rw [tick_eq_of_fetch hf]
    simp only [tickStep, hv1, bindOkE, pureOkE, subI_bridge, hset]

/-- A concrete machine: X0 holds the maximum 64-bit value, X1 holds
1, the program is `add X2, X0, X1`. -/
def addMaxSim : Simulator :=
  { registers := { registers := ((List.replicate 31 0).set 0 18446744073709551615).set 1 1,
                   pc := 0 },
    memory := Memory.new,
    instructions := [.Add 2 0 1] }

/-- Witness for C4: with X0 holding the maximum 64-bit value and X1
holding 1, `add X2, X0, X1` yields 0 in X2 with no error. -/
theorem arith_wraparound_witness :
    ∃ v1 v2 regs2,
      addMaxSim.registers.get 0 = .ok v1 ∧ addMaxSim.registers.get 1 = .ok v2 ∧
        addMaxSim.registers.set 2 ((v1 + v2) % 18446744073709551616) = .ok regs2 ∧
        addMaxSim.tick = (.ok .KeepRunning, commitPC { addMaxSim with registers := regs2 } 1) ∧
        regs2.get 2 = .ok 0 := by
  rcases arith_wraparound.1 addMaxSim 2 0 1 (by decide) (by decide) (by decide) (by decide)
    with ⟨v1, v2, regs2, hv1, hv2, hset, htick⟩
  have e1 : v1 = 18446744073709551615 := by
    have h := hv1.symm.trans
      (show addMaxSim.registers.get 0 = Except.ok 18446744073709551615 from by decide)
    exact Except.ok.inj h
  have e2 : v2 = 1 := by
    have h := hv2.symm.trans
      (show addMaxSim.registers.get 1 = Except.ok 1 from by decide)
    exact Except.ok.inj h
  subst e1; subst e2
  have e3 : regs2 =
      (⟨(((List.replicate 31 0).set 0 18446744073709551615).set 1 1).set 2 0, 0⟩ : Registers) := by
    have h2 : addMaxSim.registers.set 2 ((18446744073709551615 + 1) % 18446744073709551616)
        = Except.ok (⟨(((List.replicate 31 0).set 0 18446744073709551615).set 1 1).set 2 0, 0⟩ :
          Registers) := by decide
    exact Except.ok.inj (hset.symm.trans h2)
  refine ⟨_, _, _, hv1, hv2, hset, htick, ?_⟩
  subst e3
  decide


/-! ### Claim C5: `explain_sub` vs execution for SubI -/

/-- Embeds the concrete result value rendered by
`Instruction::explain_sub` in its `SubI` arm
(`src/simulator/instruction.rs`, the final span of the arm):
`registers.get(x1).unwrap() as i128 + lit` — a signed **addition** of
the literal, although the adjacent rendered operator is `" - "`. -/
def explainSubIValue (registers : Registers) (x1 : Nat) (lit : Int) : Int :=
  (((registers.get x1).toOption.getD 0 : Nat) : Int) + lit

/-- Embeds the operator span rendered between the two operands in the
`SubI` arm of `explain_sub`. -/
def explainSubIOperator : String := " - "

/-- A machine with X1 = 10 about to execute `subi X0, X1, #3`. -/
def subISim : Simulator :=
  { registers := { registers := (List.replicate 31 0).set 1 10, pc := 0 },
    memory := Memory.new,
    instructions := [.SubI 0 1 3] }

/-- C5 (code bug).  `subi X0, X1, #3` with X1 = 10 passes validation,
execution writes 10 - 3 = 7 into X0, but the evaluated-effect
description computes 10 + 3 = 13 while displaying the operator `" - "`:
the two formulations are *not* equivalent over the validated range. -/
theorem explain_subI_mismatch :
    (Instruction.SubI 0 1 3).validate = some (.SubI 0 1 3)
    ∧ explainSubIValue subISim.registers 1 3 = 13
    ∧ explainSubIOperator = " - "
    ∧ subISim.tick.1 = .ok .KeepRunning
    ∧ subISim.tick.2.registers.get 0 = .ok 7
    ∧ (13 : Int) ≠ (7 : Int) := by
  refine ⟨by decide, by decide, rfl, by decide, by decide, by decide⟩

/-! ### Claim C3: Load/Store effective address and alignment -/

/-- A misaligned read fails with an alignment error. -/
lemma Memory.get_misaligned (m : Memory) (a : Nat) (h : a % 8 ≠ 0) :
    m.get a = .error (.alignment a) := by
  unfold Memory.get; rw [if_pos h]

/-- A misaligned write fails with an alignment error. -/
lemma Memory.set_misaligned (m : Memory) (a v : Nat) (h : a % 8 ≠ 0) :
    m.set a v = .error (.alignment a) := by
  unfold Memory.set; rw [if_pos h]

/-- Reducing a bind on a concrete `error`. -/
lemma bindErrE {α β : Type} (e : ExecError) (f : α → Except ExecError β) :
    (Except.error e >>= f) = .error e := rfl

/-- C3.  For `Load`/`Store` the effective address is the base register
plus the signed offset, computed in 128-bit signed arithmetic and
masked to 64 bits; a misaligned address fails with an `AlignmentError`
and leaves the whole state unchanged, an aligned one performs the
memory read into the destination register (`Load`) or the register
write into memory (`Store`). -/
theorem load_store_alignment :
    (∀ (s : Simulator) (r0 r1 : Nat) (off : Int) (base : Nat),
        s.instructions[s.registers.pc]? = some (.Load r0 ⟨r1, off⟩) →
        s.registers.get r1 = .ok base →
        (wrap64 ((base : Int) + off) % 8 ≠ 0 →
            s.tick = (.error (.alignment (wrap64 ((base : Int) + off))), s))
        ∧ (∀ v regs2, s.memory.get (wrap64 ((base : Int) + off)) = .ok v →
            s.registers.set r0 v = .ok regs2 →
            s.tick = (.ok .KeepRunning, commitPC { s with registers := regs2 } 1)))
    ∧ (∀ (s : Simulator) (r0 r1 : Nat) (off : Int) (base v : Nat),
        s.instructions[s.registers.pc]? = some (.Store r0 ⟨r1, off⟩) →
        s.registers.get r1 = .ok base →
        s.registers.get r0 = .ok v →
        (wrap64 ((base : Int) + off) % 8 ≠ 0 →
            s.tick = (.error (.alignment (wrap64 ((base : Int) + off))), s))
        ∧ (∀ mem2, s.memory.set (wrap64 ((base : Int) + off)) v = .ok mem2 →
            s.tick = (.ok .KeepRunning, commitPC { s with memory := mem2 } 1))) := by
  constructor
  · intro s r0 r1 off base hf hbase
    constructor
    · intro hmis
      rw [tick_eq_of_fetch hf]
      simp only [tickStep, hbase, bindOkE,
        Memory.get_misaligned s.memory _ hmis, bindErrE]
    · intro v regs2 hget hset
      rw [tick_eq_of_fetch hf]
      simp only [tickStep, hbase, bindOkE, hget, hset, pureOkE]
  · intro s r0 r1 off base v hf hbase hv
    constructor
    · intro hmis
      rw [tick_eq_of_fetch hf]
      simp only [tickStep, hbase, hv, bindOkE,
        Memory.set_misaligned s.memory _ v hmis, bindErrE]
    · intro mem2 hmem
      rw [tick_eq_of_fetch hf]
      simp only [tickStep, hbase, hv, bindOkE, hmem, pureOkE]

/-- A machine with X1 = 5 about to execute `ldur X0, [X1, #0]`:
the effective address 5 is misaligned. -/
def loadMisSim : Simulator :=
  { registers := { registers := (List.replicate 31 0).set 1 5, pc := 0 },
    memory := Memory.new,
    instructions := [.Load 0 ⟨1, 0⟩] }

/-- Witness for C3: the misaligned load faults with an alignment error
at address 5 and the state is untouched. -/
theorem load_store_alignment_witness :
    loadMisSim.tick = (.error (.alignment 5), loadMisSim) := by
  have h := (load_store_alignment.1 loadMisSim 0 1 0 5 (by decide) (by decide)).1 (by decide)
  simpa using h

/-! ### Claim C1: halting condition and PC commit -/

/-- The instructions on which `tick` halts without mutation. -/
def isHalt : Instruction → Prop
  | .None => True
  | .Comment _ => True
  | _ => False

/-- The value a register reads as, defaulting to 0 (only consulted
when the read succeeds). -/
def regValD (r : Registers) (idx : Nat) : Nat := ((r.get idx).toOption).getD 0

/-- The specification's PC delta for an instruction: the immediate for
`Branch`, the immediate for a conditional branch whose condition
holds, and 1 in every other case (including fall-through). -/
def deltaI (r : Registers) : Instruction → Int
  | .Branch off => off
  | .BranchZero r0 off => if regValD r r0 = 0 then off else 1
  | .BranchNotZero r0 off => if regValD r r0 ≠ 0 then off else 1
  | _ => 1

/-- The specification's stop condition: PC at or past the end of the
program, or a `None`/`Comment` at the PC. -/
def stopSpec (s : Simulator) : Prop :=
  s.instructions.length ≤ s.registers.pc
  ∨ s.instructions[s.registers.pc]? = some .None
  ∨ ∃ c, s.instructions[s.registers.pc]? = some (.Comment c)

/-- The specification's PC delta for the fetched instruction. -/
def deltaSpec (s : Simulator) : Int :=
  match s.instructions[s.registers.pc]? with
  | some i => deltaI s.registers i
  | none => 1

/-- A successful read determines `regValD`. -/
lemma regValD_of_ok {r : Registers} {idx v : Nat} (h : r.get idx = .ok v) :
    regValD r idx = v := by
  unfold regValD
  rw [h]
  rfl

/-- The PC after a commit. -/
lemma commitPC_pc (s : Simulator) (d : Int) :
    (commitPC s d).registers.pc = wrap64 ((s.registers.pc : Int) + d) := rfl

/-- On a non-halting instruction, a successful step keeps running and
commits exactly the specified PC delta. -/
lemma tickStep_ok {s : Simulator} {i : Instruction} {rs : RunningState} {s1 : Simulator}
    (h : tickStep s i = .ok (rs, s1)) (hi : ¬ isHalt i) :
    rs = .KeepRunning ∧ s1.registers.pc = wrap64 ((s.registers.pc : Int) + deltaI s.registers i) := by
  cases i with
  | Add r0 r1 r2 =>
      simp only [tickStep] at h
      cases hg1 : s.registers.get r1 with
      | error e => rw [hg1, bindErrE] at h; cases h
      | ok v1 =>
        rw [hg1, bindOkE] at h
        cases hg2 : s.registers.get r2 with
        | error e => rw [hg2, bindErrE] at h; cases h
        | ok v2 =>
          rw [hg2, bindOkE] at h
          cases hst : s.registers.set r0 ((v1 + v2) % 18446744073709551616) with
          | error e => rw [hst, bindErrE] at h; cases h
          | ok regs =>
            rw [hst, bindOkE, pureOkE] at h
            cases h
            exact ⟨rfl, by simp [commitPC_pc, deltaI, Registers.pc_set hst]⟩
  | Sub r0 r1 r2 =>
      simp only [tickStep] at h
      cases hg1 : s.registers.get r1 with
      | error e => rw [hg1, bindErrE] at h; cases h
      | ok v1 =>
        rw [hg1, bindOkE] at h
        cases hg2 : s.registers.get r2 with
        | error e => rw [hg2, bindErrE] at h; cases h
        | ok v2 =>
          rw [hg2, bindOkE] at h
          cases hst : s.registers.set r0 (wrap64 ((v1 : Int) - (v2 : Int))) with
          | error e => rw [hst, bindErrE] at h; cases h
          | ok regs =>
            rw [hst, bindOkE, pureOkE] at h
            cases h
            exact ⟨rfl, by simp [commitPC_pc, deltaI, Registers.pc_set hst]⟩
  | AddI r0 r1 lit =>
      simp only [tickStep] at h
      cases hg1 : s.registers.get r1 with
      | error e => rw [hg1, bindErrE] at h; cases h
      | ok v1 =>
        rw [hg1, bindOkE] at h
        cases hst : s.registers.set r0 ((v1 + toU64 lit) % 18446744073709551616) with
        | error e => rw [hst, bindErrE] at h; cases h
        | ok regs =>
          rw [hst, bindOkE, pureOkE] at h
          cases h
          exact ⟨rfl, by simp [commitPC_pc, deltaI, Registers.pc_set hst]⟩
  | SubI r0 r1 lit =>
      simp only [tickStep] at h
      cases hg1 : s.registers.get r1 with
      | error e => rw [hg1, bindErrE] at h; cases h
      | ok v1 =>
        rw [hg1, bindOkE] at h
        cases hst : s.registers.set r0 (wrap64 ((v1 : Int) - (toU64 lit : Int))) with
        | error e => rw [hst, bindErrE] at h; cases h
        | ok regs =>
          rw [hst, bindOkE, pureOkE] at h
          cases h
          exact ⟨rfl, by simp [commitPC_pc, deltaI, Registers.pc_set hst]⟩
  | Load r0 o =>
      obtain ⟨r1, off⟩ := o
      simp only [tickStep] at h
      cases hg1 : s.registers.get r1 with
      | error e => rw [hg1, bindErrE] at h; cases h
      | ok addr =>
        rw [hg1, bindOkE] at h
        cases hgm : s.memory.get (wrap64 ((addr : Int) + off)) with
        | error e => rw [hgm, bindErrE] at h; cases h
        | ok val =>
          rw [hgm, bindOkE] at h
          cases hst : s.registers.set r0 val with
          | error e => rw [hst, bindErrE] at h; cases h
          | ok regs =>
            rw [hst, bindOkE, pureOkE] at h
            cases h
            exact ⟨rfl, by simp [commitPC_pc, deltaI, Registers.pc_set hst]⟩
  | Store r0 o =>
      obtain ⟨r1, off⟩ := o
      simp only [tickStep] at h
      cases hg1 : s.registers.get r1 with
      | error e => rw [hg1, bindErrE] at h; cases h
      | ok addr =>
        rw [hg1, bindOkE] at h
        cases hg0 : s.registers.get r0 with
        | error e => rw [hg0, bindErrE] at h; cases h
        | ok val =>
          rw [hg0, bindOkE] at h
          cases hsm : s.memory.set (wrap64 ((addr : Int) + off)) val with
          | error e => rw [hsm, bindErrE] at h; cases h
          | ok mem =>
            rw [hsm, bindOkE, pureOkE] at h
            cases h
            exact ⟨rfl, by simp [commitPC_pc, deltaI]⟩
  | Branch off =>
      simp only [tickStep, pureOkE] at h
      cases h
      exact ⟨rfl, by simp [commitPC_pc, deltaI]⟩
  | BranchZero r0 off =>
      simp only [tickStep] at h
      cases hg0 : s.registers.get r0 with
      | error e => rw [hg0, bindErrE] at h; cases h
      | ok val =>
        rw [hg0, bindOkE] at h
        by_cases hz : val = 0
        · rw [if_pos hz, pureOkE] at h
          cases h
          refine ⟨rfl, ?_⟩
          rw [commitPC_pc, deltaI]
          rw [regValD_of_ok hg0, if_pos hz]
        · rw [if_neg hz, pureOkE] at h
          cases h
          refine ⟨rfl, ?_⟩
          rw [commitPC_pc, deltaI]
          rw [regValD_of_ok hg0, if_neg hz]
  | BranchNotZero r0 off =>
      simp only [tickStep] at h
      cases hg0 : s.registers.get r0 with
      | error e => rw [hg0, bindErrE] at h; cases h
      | ok val =>
        rw [hg0, bindOkE] at h
        by_cases hz : val ≠ 0
        · rw [if_pos hz, pureOkE] at h
          cases h
          refine ⟨rfl, ?_⟩
          rw [commitPC_pc, deltaI]
          rw [regValD_of_ok hg0, if_pos hz]
        · rw [if_neg hz, pureOkE] at h
          cases h
          refine ⟨rfl, ?_⟩
          rw [commitPC_pc, deltaI]
          rw [regValD_of_ok hg0, if_neg hz]
  | None => exact absurd trivial hi
  | Comment c => exact absurd trivial hi

/-- Halting instructions are decidable. -/
instance (i : Instruction) : Decidable (isHalt i) := by
  cases i <;> simp only [isHalt] <;> infer_instance

/-- A halting instruction stops the machine with no state change. -/
lemma tickStep_halt (s : Simulator) {i : Instruction} (hi : isHalt i) :
    tickStep s i = .ok (.ShouldStop, s) := by
  cases i <;> first | rfl | exact hi.elim

/-- C1.  `tick` returns `ShouldStop` and leaves the whole state
unchanged exactly when the PC is at or past the program's end or the
fetched instruction is `None`/`Comment`; in every other non-error case
it returns `KeepRunning` and commits
`new PC = wrap64(old PC + delta)` with delta the immediate for
`Branch`, the immediate for a satisfied `BranchZero`/`BranchNotZero`,
and 1 otherwise (branch fall-through included). -/
theorem tick_halt_and_commit (s : Simulator) :
    (s.tick = (.ok .ShouldStop, s) ↔ stopSpec s)
    ∧ (∀ res s2, s.tick = (res, s2) → res = .ok .ShouldStop → s2 = s)
    ∧ (¬ stopSpec s → ∀ rs s2, s.tick = (.ok rs, s2) →
        rs = .KeepRunning ∧
          s2.registers.pc = wrap64 ((s.registers.pc : Int) + deltaSpec s)) := by
  by_cases hpc : s.registers.pc < s.instructions.length
  · have hf : s.instructions[s.registers.pc]? = some (s.instructions[s.registers.pc]) :=
      List.getElem?_eq_some_iff.mpr ⟨hpc, rfl⟩
    by_cases hi : isHalt (s.instructions[s.registers.pc])
    · have ht : s.tick = (.ok .ShouldStop, s) := by
        rw [tick_eq_of_fetch hf, tickStep_halt s hi]
      have hstop : stopSpec s := by
        cases hI : s.instructions[s.registers.pc] with
        | None =>
            rw [hI] at hf
            exact Or.inr (Or.inl hf)
        | Comment c =>
            rw [hI] at hf
            exact Or.inr (Or.inr ⟨c, hf⟩)
        | _ => rw [hI] at hi; exact hi.elim
      refine ⟨⟨fun _ => hstop, fun _ => ht⟩, ?_, fun hns => absurd hstop hns⟩
      intro res s2 h hres
      injection ht.symm.trans h with h1 h2
      exact h2.symm
    · have hnstop : ¬ stopSpec s := by
        intro hstop
        rcases hstop with h1 | h2 | ⟨c, h3⟩
        · omega
        · have hEq := Option.some.inj (hf.symm.trans h2)
          rw [hEq] at hi
          exact hi trivial
        · have hEq := Option.some.inj (hf.symm.trans h3)
          rw [hEq] at hi
          exact hi trivial
      have hds : deltaSpec s = deltaI s.registers (s.instructions[s.registers.pc]) := by
        unfold deltaSpec
        rw [hf]
      refine ⟨⟨?_, fun hstop => absurd hstop hnstop⟩, ?_, ?_⟩
      · intro h
        rw [tick_eq_of_fetch hf] at h
        cases hts : tickStep s (s.instructions[s.registers.pc]) with
        | error e => rw [hts] at h; simp at h
        | ok p =>
            obtain ⟨rs, s1⟩ := p
            rw [hts] at h
            injection h with ha hb
            have hko := (tickStep_ok hts hi).1
            rw [hko] at ha
            cases Except.ok.inj ha
      · intro res s2 h hres
        subst hres
        rw [tick_eq_of_fetch hf] at h
        cases hts : tickStep s (s.instructions[s.registers.pc]) with
        | error e => rw [hts] at h; injection h with ha hb; cases ha
        | ok p =>
            obtain ⟨rs, s1⟩ := p
            rw [hts] at h
            injection h with ha hb
            have hko := (tickStep_ok hts hi).1
            rw [hko] at ha
            cases Except.ok.inj ha
      · intro hns rs s2 h
        rw [tick_eq_of_fetch hf] at h
        cases hts : tickStep s (s.instructions[s.registers.pc]) with
        | error e => rw [hts] at h; injection h with ha hb; cases ha
        | ok p =>
            obtain ⟨rs1, s1⟩ := p
            rw [hts] at h
            injection h with ha hb
            obtain ⟨hko, hpcEq⟩ := tickStep_ok hts hi
            have hrs : rs1 = rs := Except.ok.inj ha
            refine ⟨by rw [← hrs, hko], ?_⟩
            rw [← hb, hpcEq, hds]
  · have hout : s.instructions.length ≤ s.registers.pc := by omega
    have ht := tick_eq_of_pc_out hout
    have hstop : stopSpec s := Or.inl hout
    refine ⟨⟨fun _ => hstop, fun _ => ht⟩, ?_, fun hns => absurd hstop hns⟩
    intro res s2 h hres
    injection ht.symm.trans h with h1 h2
    exact h2.symm

/-- A machine at PC 5 whose instruction there is `b #-3`. -/
def branchBackSim : Simulator :=
  { registers := { Registers.new with pc := 5 },
    memory := Memory.new,
    instructions := [.None, .None, .None, .None, .None, .Branch (-3)] }

/-- Witness for C1: at PC 5, `b #-3` keeps running and commits PC 2. -/
theorem tick_halt_and_commit_witness :
    ¬ stopSpec branchBackSim ∧ branchBackSim.tick.2.registers.pc = 2 := by
  have hns : ¬ stopSpec branchBackSim := by
    intro h
    rcases h with h1 | h2 | ⟨c, h3⟩
    · exact absurd h1 (by decide)
    · exact absurd h2 (by decide)
    · have hB : branchBackSim.instructions[branchBackSim.registers.pc]? =
          some (.Branch (-3)) := by decide
      cases Option.some.inj (hB.symm.trans h3)
  have h := (tick_halt_and_commit branchBackSim).2.2 hns .KeepRunning
    branchBackSim.tick.2 (by decide)
  refine ⟨hns, ?_⟩
  rw [h.2]
  decide

/-! ### Rendering and parsing

The `Display` implementation is embedded as `render` below.  The pest
grammar file (`simulator/grammar.pest`) is not part of the sources, so
the token-level parser is modelled from the spec (trim and case-fold;
empty line is the halt marker; `//` starts a comment kept verbatim;
nine instruction forms with register tokens `X0`..`X30` or `XZR` and
signed decimal immediates). -/

/-- The ten decimal digit characters, as a Boolean predicate. -/
def isDig (c : Char) : Bool :=
  c == '0' || c == '1' || c == '2' || c == '3' || c == '4' ||
  c == '5' || c == '6' || c == '7' || c == '8' || c == '9'

/-- The numeric value of a decimal digit character. -/
def digVal (c : Char) : Nat :=
  if c = '0' then 0 else if c = '1' then 1 else if c = '2' then 2
  else if c = '3' then 3 else if c = '4' then 4 else if c = '5' then 5
  else if c = '6' then 6 else if c = '7' then 7 else if c = '8' then 8
  else 9

/-- The decimal digit character for a value below 10. -/
def digitChar (d : Nat) : Char :=
  if d = 0 then '0' else if d = 1 then '1' else if d = 2 then '2'
  else if d = 3 then '3' else if d = 4 then '4' else if d = 5 then '5'
  else if d = 6 then '6' else if d = 7 then '7' else if d = 8 then '8'
  else '9'

/-- ASCII whitespace (the characters `str::trim` strips on ASCII
input). -/
def isWs (c : Char) : Bool :=
  c == ' ' || c == '\t' || c == '\n' || c == '\r'

/-- Strip whitespace from both ends (embeds `str::trim`). -/
def trimChars (l : List Char) : List Char :=
  ((l.dropWhile isWs).reverse.dropWhile isWs).reverse

/-- Uppercase every character (embeds `str::to_uppercase`, which on
the ASCII instruction alphabet is per-character). -/
def toUpperChars (l : List Char) : List Char := l.map Char.toUpper

/-- Digit-string worker, structurally recursive on a fuel bound so
that it reduces in the kernel. -/
def natToDigitsAux (fuel n : Nat) : List Char :=
  match fuel with
  | 0 => []
  | fuel + 1 =>
      if n < 10 then [digitChar n]
      else natToDigitsAux fuel (n / 10) ++ [digitChar (n % 10)]

/-- The fuel does not matter once it exceeds the argument. -/
lemma natToDigitsAux_congr : ∀ (n f1 f2 : Nat), n < f1 → n < f2 →
    natToDigitsAux f1 n = natToDigitsAux f2 n := by
  intro n
  induction n using Nat.strong_induction_on with
  | _ n ih =>
      intro f1 f2 h1 h2
      match f1, f2 with
      | g1 + 1, g2 + 1 =>
          simp only [natToDigitsAux]
          by_cases hn : n < 10
          · rw [if_pos hn, if_pos hn]
          · rw [if_neg hn, if_neg hn]
            have hd : n / 10 < n := Nat.div_lt_self (by omega) (by omega)
            rw [ih (n / 10) hd g1 g2 (by omega) (by omega)]

/-- The decimal digit string of a natural number, most significant
digit first (the `Display` output of an unsigned integer). -/
def natToDigits (n : Nat) : List Char := natToDigitsAux (n + 1) n

/-- Unfolding equation for `natToDigits`. -/
lemma natToDigits_unfold (n : Nat) :
    natToDigits n = if n < 10 then [digitChar n]
      else natToDigits (n / 10) ++ [digitChar (n % 10)] := by
  show natToDigitsAux (n + 1) n = _
  by_cases hn : n < 10
  · simp only [natToDigitsAux]
    rw [if_pos hn, if_pos hn]
  · simp only [natToDigitsAux]
    rw [if_neg hn, if_neg hn]
    have hd : n / 10 < n := Nat.div_lt_self (by omega) (by omega)
    rw [natToDigitsAux_congr (n / 10) n (n / 10 + 1) (by omega) (by omega)]
    rfl

/-- The decimal digit string of an integer (the `Display` output of a
signed integer). -/
def intToDigits (i : Int) : List Char :=
  if i < 0 then '-' :: natToDigits i.natAbs else natToDigits i.natAbs

/-- Decimal rendering of a natural number as a string. -/
def natStr (n : Nat) : String := String.mk (natToDigits n)

/-- Decimal rendering of an integer as a string. -/
def intStr (i : Int) : String := String.mk (intToDigits i)

/-- Embeds `impl Display for Instruction`: the canonical textual form
of each instruction. -/
def render (i : Instruction) : String :=
  match i with
  | .Add r0 r1 r2 => "add  X" ++ natStr r0 ++ ", X" ++ natStr r1 ++ ", X" ++ natStr r2
  | .Sub r0 r1 r2 => "sub  X" ++ natStr r0 ++ ", X" ++ natStr r1 ++ ", X" ++ natStr r2
  | .AddI r0 r1 lit => "addi X" ++ natStr r0 ++ ", X" ++ natStr r1 ++ ", #" ++ intStr lit
  | .SubI r0 r1 lit => "subi X" ++ natStr r0 ++ ", X" ++ natStr r1 ++ ", #" ++ intStr lit
  | .Load r0 o => "ldur X" ++ natStr r0 ++ ", [X" ++ natStr o.reg ++ ", #" ++ intStr o.lit ++ "]"
  | .Store r0 o => "stur X" ++ natStr r0 ++ ", [X" ++ natStr o.reg ++ ", #" ++ intStr o.lit ++ "]"
  | .Branch lit => "b    #" ++ intStr lit
  | .BranchZero r0 lit => "cbz  X" ++ natStr r0 ++ ", #" ++ intStr lit
  | .BranchNotZero r0 lit => "cbnz X" ++ natStr r0 ++ ", #" ++ intStr lit
  | .None => ""
  | .Comment s => "//" ++ s

/-- Skip blanks between tokens. -/
def skipSpaces (l : List Char) : List Char := l.dropWhile (fun c => c == ' ')

/-- The value of a digit string. -/
def valDigits (l : List Char) : Nat := l.foldl (fun a c => a * 10 + digVal c) 0

/-- Modelled from the spec: parse a non-empty run of decimal digits
(`pos_number` in the missing grammar file), returning its value and
the rest of the input. -/
def parseDigits (l : List Char) : Option (Nat × List Char) :=
  if (l.takeWhile isDig).isEmpty then none
  else some (valDigits (l.takeWhile isDig), l.dropWhile isDig)

/-- Modelled from the spec: parse a signed decimal integer
(`literal_num` in the missing grammar file). -/
def parseIntChars (l : List Char) : Option (Int × List Char) :=
  match l with
  | [] => none
  | c :: rest =>
      if c = '-' then (parseDigits rest).map (fun p => (-(p.1 : Int), p.2))
      else (parseDigits (c :: rest)).map (fun p => ((p.1 : Int), p.2))

/-- Modelled from the spec: a register token is `XZR` (index 31) or
`X` followed by a number 0..30. -/
def parseRegChars (l : List Char) : Option (Nat × List Char) :=
  if l.take 3 = ['X', 'Z', 'R'] then some (31, l.drop 3)
  else
    match l with
    | 'X' :: rest => (parseDigits rest).bind (fun p => if p.1 ≤ 30 then some p else none)
    | _ => none

/-- Modelled from the spec: an immediate token is `#` followed by a
signed decimal integer. -/
def parseLit (l : List Char) : Option (Int × List Char) :=
  match l with
  | '#' :: rest => parseIntChars rest
  | _ => none

/-- An operand separator: a comma with optional surrounding blanks. -/
def sepComma (l : List Char) : Option (List Char) :=
  match skipSpaces l with
  | ',' :: rest => some (skipSpaces rest)
  | _ => none

/-- Match a mnemonic keyword followed by at least one blank. -/
def afterKw (kw l : List Char) : Option (List Char) :=
  if l.take kw.length = kw then
    match l.drop kw.length with
    | ' ' :: rest => some (skipSpaces rest)
    | _ => none
  else none

/-- Three register operands (`add`/`sub`). -/
def parse3R (mk : Nat → Nat → Nat → Instruction) (l : List Char) : Option Instruction :=
  (parseRegChars l).bind fun p1 =>
  (sepComma p1.2).bind fun l2 =>
  (parseRegChars l2).bind fun p2 =>
  (sepComma p2.2).bind fun l3 =>
  (parseRegChars l3).bind fun p3 =>
  if (skipSpaces p3.2).isEmpty then some (mk p1.1 p2.1 p3.1) else none

/-- Two registers and an immediate (`addi`/`subi`). -/
def parseRRI (mk : Nat → Nat → Int → Instruction) (l : List Char) : Option Instruction :=
  (parseRegChars l).bind fun p1 =>
  (sepComma p1.2).bind fun l2 =>
  (parseRegChars l2).bind fun p2 =>
  (sepComma p2.2).bind fun l3 =>
  (parseLit l3).bind fun p3 =>
  if (skipSpaces p3.2).isEmpty then some (mk p1.1 p2.1 p3.1) else none

/-- A register and a bracketed base-plus-offset (`ldur`/`stur`). -/
def parseMem (mk : Nat → Offset → Instruction) (l : List Char) : Option Instruction :=
  (parseRegChars l).bind fun p1 =>
  (sepComma p1.2).bind fun l2 =>
  (match l2 with | '[' :: r => some (skipSpaces r) | _ => none).bind fun l3 =>
  (parseRegChars l3).bind fun p2 =>
  (sepComma p2.2).bind fun l4 =>
  (parseLit l4).bind fun p3 =>
  (match skipSpaces p3.2 with | ']' :: r => some (skipSpaces r) | _ => none).bind fun l5 =>
  if l5.isEmpty then some (mk p1.1 ⟨p2.1, p3.1⟩) else none

/-- A lone immediate (`b`). -/
def parseB (l : List Char) : Option Instruction :=
  (parseLit l).bind fun p =>
  if (skipSpaces p.2).isEmpty then some (.Branch p.1) else none

/-- A register and an immediate (`cbz`/`cbnz`). -/
def parseRI (mk : Nat → Int → Instruction) (l : List Char) : Option Instruction :=
  (parseRegChars l).bind fun p1 =>
  (sepComma p1.2).bind fun l2 =>
  (parseLit l2).bind fun p2 =>
  if (skipSpaces p2.2).isEmpty then some (mk p1.1 p2.1) else none

/-- Modelled from the spec: the nine instruction forms of the missing
grammar file, tried by mnemonic. -/
def parseInstrChars (l : List Char) : Option Instruction :=
  ((afterKw ['A', 'D', 'D', 'I'] l).bind (parseRRI Instruction.AddI))
  <|> ((afterKw ['S', 'U', 'B', 'I'] l).bind (parseRRI Instruction.SubI))
  <|> ((afterKw ['L', 'D', 'U', 'R'] l).bind (parseMem Instruction.Load))
  <|> ((afterKw ['S', 'T', 'U', 'R'] l).bind (parseMem Instruction.Store))
  <|> ((afterKw ['C', 'B', 'N', 'Z'] l).bind (parseRI Instruction.BranchNotZero))
  <|> ((afterKw ['C', 'B', 'Z'] l).bind (parseRI Instruction.BranchZero))
  <|> ((afterKw ['A', 'D', 'D'] l).bind (parse3R Instruction.Add))
  <|> ((afterKw ['S', 'U', 'B'] l).bind (parse3R Instruction.Sub))
  <|> ((afterKw ['B'] l).bind parseB)

/-- Embeds `impl FromStr for Instruction`, with the missing grammar
file modelled from the spec: the line is trimmed, then upper-cased
(both straight from the source); an empty result is the halt marker;
a `//` line is a comment keeping the remainder (of the upper-cased
line, as the source takes the span from the case-folded input); any
other line is parsed as an instruction and then validated. -/
def from_str (input : String) : Option Instruction :=
  if (toUpperChars (trimChars input.data)).isEmpty then some .None
  else if (toUpperChars (trimChars input.data)).take 2 = ['/', '/'] then
    some (.Comment (String.mk ((toUpperChars (trimChars input.data)).drop 2)))
  else (parseInstrChars (toUpperChars (trimChars input.data))).bind Instruction.validate

/-! ### Digit string facts -/

/-- A digit character is one of the ten digits. -/
lemma isDig_cases {c : Char} (h : isDig c = true) :
    c = '0' ∨ c = '1' ∨ c = '2' ∨ c = '3' ∨ c = '4' ∨
    c = '5' ∨ c = '6' ∨ c = '7' ∨ c = '8' ∨ c = '9' := by
  simp only [isDig, Bool.or_eq_true, beq_iff_eq] at h
  tauto

/-- `digitChar` produces digit characters. -/
lemma isDig_digitChar (d : Nat) : isDig (digitChar d) = true := by
  unfold digitChar
  split_ifs <;> decide

/-- `digVal` inverts `digitChar` below 10. -/
lemma digVal_digitChar {d : Nat} (h : d < 10) : digVal (digitChar d) = d := by
  unfold digitChar digVal
  interval_cases d <;> decide

/-- Upper-casing fixes digit characters. -/
lemma toUpper_digitChar (c : Char) (h : isDig c = true) : c.toUpper = c := by
  rcases isDig_cases h with rfl | rfl | rfl | rfl | rfl | rfl | rfl | rfl | rfl | rfl <;> decide

/-- Digit characters are none of the parser's structural characters
and are not whitespace. -/
lemma isDig_ne {c : Char} (h : isDig c = true) :
    c ≠ ' ' ∧ c ≠ ',' ∧ c ≠ 'Z' ∧ c ≠ '-' ∧ c ≠ '[' ∧ c ≠ ']' ∧ c ≠ '#' ∧ isWs c = false := by
  rcases isDig_cases h with rfl | rfl | rfl | rfl | rfl | rfl | rfl | rfl | rfl | rfl <;> decide

/-- A digit string is never empty. -/
lemma natToDigits_ne_nil (n : Nat) : natToDigits n ≠ [] := by
  rw [natToDigits_unfold]
  split
  · simp
  · simp

/-- Every character of a digit string is a digit. -/
lemma natToDigits_all_dig : ∀ (n : Nat), ∀ c ∈ natToDigits n, isDig c = true := by
  intro n
  induction n using Nat.strong_induction_on with
  | _ n ih =>
      intro c hc
      rw [natToDigits_unfold] at hc
      by_cases hn : n < 10
      · rw [if_pos hn] at hc
        rcases List.mem_singleton.mp hc with rfl
        exact isDig_digitChar n
      · rw [if_neg hn] at hc
        rcases List.mem_append.mp hc with h1 | h1
        · exact ih (n / 10) (Nat.div_lt_self (by omega) (by omega)) c h1
        · rcases List.mem_singleton.mp h1 with rfl
          exact isDig_digitChar (n % 10)

/-- Folding the digit-value accumulator over a digit string. -/
lemma foldl_natToDigits : ∀ (n a : Nat),
    List.foldl (fun a c => a * 10 + digVal c) a (natToDigits n)
      = a * 10 ^ (natToDigits n).length + n := by
  intro n
  induction n using Nat.strong_induction_on with
  | _ n ih =>
      intro a
      rw [natToDigits_unfold]
      by_cases hn : n < 10
      · rw [if_pos hn]
        simp [digVal_digitChar hn]
      · rw [if_neg hn]
        rw [List.foldl_append, ih (n / 10) (Nat.div_lt_self (by omega) (by omega)) a]
        simp only [List.foldl_cons, List.foldl_nil, List.length_append, List.length_cons,
          List.length_nil]
        rw [digVal_digitChar (Nat.mod_lt n (by omega))]
        ring_nf
        omega

/-- Parsing the digit string of `n` recovers `n`. -/
lemma valDigits_natToDigits (n : Nat) : valDigits (natToDigits n) = n := by
  unfold valDigits
  rw [foldl_natToDigits n 0]
  simp

/-! ### Parsing the rendered text -/

/-- `takeWhile` passes over a prefix every character of which
satisfies the predicate. -/
lemma takeWhile_append_all {p : Char → Bool} {xs ys : List Char}
    (h : ∀ c ∈ xs, p c = true) :
    (xs ++ ys).takeWhile p = xs ++ ys.takeWhile p := by
  induction xs with
  | nil => simp
  | cons a l ih =>
      simp only [List.cons_append, List.takeWhile_cons]
      rw [h a (by simp)]
      simp only [if_true]
      rw [ih (fun c hc => h c (by simp [hc]))]

/-- `dropWhile` drops a prefix every character of which satisfies the
predicate. -/
lemma dropWhile_append_all {p : Char → Bool} {xs ys : List Char}
    (h : ∀ c ∈ xs, p c = true) :
    (xs ++ ys).dropWhile p = ys.dropWhile p := by
  induction xs with
  | nil => simp
  | cons a l ih =>
      simp only [List.cons_append, List.dropWhile_cons]
      rw [h a (by simp)]
      simp only [if_true]
      exact ih (fun c hc => h c (by simp [hc]))

/-- `takeWhile` stops immediately on a failing head. -/
lemma takeWhile_nil_of_head {p : Char → Bool} {l : List Char}
    (h : ∀ c, l.head? = some c → p c = false) : l.takeWhile p = [] := by
  cases l with
  | nil => rfl
  | cons a t => simp [List.takeWhile_cons, h a rfl]

/-- `dropWhile` keeps a list whose head fails the predicate. -/
lemma dropWhile_self_of_head {p : Char → Bool} {l : List Char}
    (h : ∀ c, l.head? = some c → p c = false) : l.dropWhile p = l := by
  cases l with
  | nil => rfl
  | cons a t => simp [List.dropWhile_cons, h a rfl]

/-- The input after a rendered number never continues with a digit. -/
def noDigHead (l : List Char) : Prop := ∀ c, l.head? = some c → isDig c = false

/-- A digit string is a non-empty cons. -/
lemma natToDigits_cons (n : Nat) : ∃ d ds, natToDigits n = d :: ds := by
  cases hD : natToDigits n with
  | nil => exact absurd hD (natToDigits_ne_nil n)
  | cons a l => exact ⟨a, l, rfl⟩

/-- Round trip for an unsigned decimal token. -/
lemma parseDigits_round (n : Nat) (rest : List Char) (h : noDigHead rest) :
    parseDigits (natToDigits n ++ rest) = some (n, rest) := by
  unfold parseDigits
  rw [takeWhile_append_all (natToDigits_all_dig n), takeWhile_nil_of_head h, List.append_nil,
      dropWhile_append_all (natToDigits_all_dig n), dropWhile_self_of_head h]
  have hne : (natToDigits n).isEmpty = false := by
    rcases natToDigits_cons n with ⟨d, ds, hd⟩
    rw [hd]
    rfl
  rw [hne, valDigits_natToDigits]
  rfl

/-- Round trip for a signed decimal token. -/
lemma parseIntChars_round (i : Int) (rest : List Char) (h : noDigHead rest) :
    parseIntChars (intToDigits i ++ rest) = some (i, rest) := by
  unfold intToDigits
  by_cases hi : i < 0
  · rw [if_pos hi]
    simp only [List.cons_append, parseIntChars, if_pos rfl]
    rw [parseDigits_round i.natAbs rest h]
    show some (-((i.natAbs : Nat) : Int), rest) = some (i, rest)
    have : -((i.natAbs : Nat) : Int) = i := by omega
    rw [this]
  · rw [if_neg hi]
    rcases natToDigits_cons i.natAbs with ⟨d, ds, hd⟩
    have hdig : isDig d = true := natToDigits_all_dig _ d (by rw [hd]; simp)
    have hne : d ≠ '-' := (isDig_ne hdig).2.2.2.1
    rw [hd]
    simp only [List.cons_append, parseIntChars]
    rw [if_neg hne, ← List.cons_append, ← hd, parseDigits_round i.natAbs rest h]
    show some (((i.natAbs : Nat) : Int), rest) = some (i, rest)
    have : ((i.natAbs : Nat) : Int) = i := by omega
    rw [this]

/-- Round trip for a register token with index at most 30. -/
lemma parseRegChars_round (r : Nat) (hr : r ≤ 30) (rest : List Char) (h : noDigHead rest) :
    parseRegChars ('X' :: (natToDigits r ++ rest)) = some (r, rest) := by
  rcases natToDigits_cons r with ⟨d, ds, hd⟩
  have hdig : isDig d = true := natToDigits_all_dig _ d (by rw [hd]; simp)
  have hz : d ≠ 'Z' := (isDig_ne hdig).2.2.1
  unfold parseRegChars
  rw [hd]
  rw [if_neg ?hne]
  case hne =>
    simp only [List.cons_append, List.take_succ_cons]
    intro hEq
    injection hEq with h1 h2
    injection h2 with h3 h4
    exact hz h3
  simp only [List.cons_append]
  rw [show (d :: (ds ++ rest) : List Char) = (d :: ds) ++ rest from rfl, ← hd,
    parseDigits_round r rest h]
  simp [hr]

/-- Round trip for an immediate token. -/
lemma parseLit_round (i : Int) (rest : List Char) (h : noDigHead rest) :
    parseLit ('#' :: (intToDigits i ++ rest)) = some (i, rest) := by
  simp only [parseLit]
  exact parseIntChars_round i rest h

/-- `skipSpaces` does not move past a non-blank head. -/
lemma skipSpaces_cons_of {c : Char} {l : List Char} (h : (c == ' ') = false) :
    skipSpaces (c :: l) = c :: l := by
  simp [skipSpaces, List.dropWhile_cons, h]

/-- `skipSpaces` consumes a blank. -/
lemma skipSpaces_space (l : List Char) : skipSpaces (' ' :: l) = skipSpaces l := by
  simp [skipSpaces, List.dropWhile_cons]

/-! ### Trimming and case-folding the rendered text -/

/-- The head of a reversed list is the last element. -/
lemma head_of_reverse (l : List Char) : l.reverse.head? = l.getLast? := by
  induction l using List.reverseRecOn with
  | nil => rfl
  | append_singleton l a ih => simp

/-- Trimming fixes a string with non-blank ends. -/
lemma trimChars_eq_self {l : List Char}
    (h1 : ∀ c, l.head? = some c → isWs c = false)
    (h2 : ∀ c, l.getLast? = some c → isWs c = false) :
    trimChars l = l := by
  unfold trimChars
  rw [dropWhile_self_of_head h1]
  rw [dropWhile_self_of_head (fun c hc => h2 c ((head_of_reverse l) ▸ hc))]
  exact List.reverse_reverse l

/-- A pointwise-fixed map is the identity. -/
lemma map_eq_self_of {f : Char → Char} {l : List Char} (h : ∀ c ∈ l, f c = c) :
    l.map f = l := by
  induction l with
  | nil => rfl
  | cons a t ih =>
      simp only [List.map_cons]
      rw [h a (by simp), ih (fun c hc => h c (by simp [hc]))]

/-- Case-folding fixes a digit string. -/
lemma toUpperChars_natToDigits (n : Nat) : toUpperChars (natToDigits n) = natToDigits n :=
  map_eq_self_of (fun c hc => toUpper_digitChar c (natToDigits_all_dig n c hc))

/-- Case-folding fixes a signed digit string. -/
lemma toUpperChars_intToDigits (i : Int) : toUpperChars (intToDigits i) = intToDigits i := by
  unfold intToDigits
  split
  · simp only [toUpperChars, List.map_cons]
    rw [show '-'.toUpper = '-' from by decide]
    have := toUpperChars_natToDigits i.natAbs
    simp only [toUpperChars] at this
    rw [this]
  · exact toUpperChars_natToDigits i.natAbs

/-- The last character of a digit string is a digit. -/
lemma natToDigits_getLast_dig (n : Nat) :
    ∀ c, (natToDigits n).getLast? = some c → isDig c = true := by
  intro c hc
  rcases List.mem_getLast?_eq_getLast (Option.mem_def.mpr hc) with ⟨hne, hEq⟩
  exact natToDigits_all_dig n c (hEq ▸ List.getLast_mem hne)

/-- A signed digit string is never empty. -/
lemma intToDigits_ne_nil (i : Int) : intToDigits i ≠ [] := by
  unfold intToDigits
  split
  · simp
  · exact natToDigits_ne_nil _

/-- The last character of a signed digit string is a digit. -/
lemma intToDigits_getLast_dig (i : Int) :
    ∀ c, (intToDigits i).getLast? = some c → isDig c = true := by
  intro c hc
  unfold intToDigits at hc
  by_cases hi : i < 0
  · rw [if_pos hi] at hc
    rw [show ('-' :: natToDigits i.natAbs : List Char) = ['-'] ++ natToDigits i.natAbs from rfl,
      List.getLast?_append_of_ne_nil _ (natToDigits_ne_nil _)] at hc
    exact natToDigits_getLast_dig _ c hc
  · rw [if_neg hi] at hc
    exact natToDigits_getLast_dig _ c hc

/-- A list headed by a non-digit (or nothing) has no digit head. -/
lemma noDigHead_cons {c : Char} (h : isDig c = false) (l : List Char) :
    noDigHead (c :: l) := by
  intro x hx
  cases Option.some.inj hx
  exact h

/-- The empty list has no digit head. -/
lemma noDigHead_nil : noDigHead [] := by
  intro x hx
  cases hx

/-- String concatenation concatenates the character lists. -/
lemma str_data_append (a b : String) : (a ++ b).data = a.data ++ b.data := rfl

/-- Rebuilding a string from its characters is the identity. -/
lemma str_mk_data (s : String) : String.mk s.data = s := rfl

/-- The characters of a rebuilt string. -/
lemma data_mk (l : List Char) : (String.mk l).data = l := rfl

/-! ### Claim C2: render/parse round trip -/

/-- Upper-casing facts for the rendered alphabet. -/
lemma up_a : 'a'.toUpper = 'A' := by decide

/-- Upper-casing 'b'. -/
lemma up_b : 'b'.toUpper = 'B' := by decide

/-- Upper-casing 'c'. -/
lemma up_c : 'c'.toUpper = 'C' := by decide

/-- Upper-casing 'd'. -/
lemma up_d : 'd'.toUpper = 'D' := by decide

/-- Upper-casing 'i'. -/
lemma up_i : 'i'.toUpper = 'I' := by decide

/-- Upper-casing 'l'. -/
lemma up_l : 'l'.toUpper = 'L' := by decide

/-- Upper-casing 'n'. -/
lemma up_n : 'n'.toUpper = 'N' := by decide

/-- Upper-casing 'r'. -/
lemma up_r : 'r'.toUpper = 'R' := by decide

/-- Upper-casing 's'. -/
lemma up_s : 's'.toUpper = 'S' := by decide

/-- Upper-casing 't'. -/
lemma up_t : 't'.toUpper = 'T' := by decide

/-- Upper-casing 'u'. -/
lemma up_u : 'u'.toUpper = 'U' := by decide

/-- Upper-casing 'z'. -/
lemma up_z : 'z'.toUpper = 'Z' := by decide

/-- Upper-casing fixes 'X'. -/
lemma up_X : 'X'.toUpper = 'X' := by decide

/-- Upper-casing fixes a blank. -/
lemma up_sp : ' '.toUpper = ' ' := by decide

/-- Upper-casing fixes a comma. -/
lemma up_comma : ','.toUpper = ',' := by decide

/-- Upper-casing fixes a hash. -/
lemma up_hash : '#'.toUpper = '#' := by decide

/-- Upper-casing fixes an opening bracket. -/
lemma up_lbr : '['.toUpper = '[' := by decide

/-- Upper-casing fixes a closing bracket. -/
lemma up_rbr : ']'.toUpper = ']' := by decide

/-- Upper-casing fixes a slash. -/
lemma up_slash : '/'.toUpper = '/' := by decide

/-- Case-folding fixes a digit string (map form). -/
lemma map_upper_natToDigits (n : Nat) :
    List.map Char.toUpper (natToDigits n) = natToDigits n := toUpperChars_natToDigits n

/-- Case-folding fixes a signed digit string (map form). -/
lemma map_upper_intToDigits (i : Int) :
    List.map Char.toUpper (intToDigits i) = intToDigits i := toUpperChars_intToDigits i

/-- `sepComma` consumes a comma and trailing blanks. -/
lemma sepComma_cons (rest : List Char) : sepComma (',' :: rest) = some (skipSpaces rest) := by
  simp [sepComma, skipSpaces, List.dropWhile_cons]

/-- `skipSpaces` of nothing. -/
lemma skipSpaces_nil : skipSpaces [] = [] := rfl

/-- The register indices rendered with an `X` prefix all lie in
0..=30, so that their decimal form re-parses as a register token. -/
def regsRT (i : Instruction) : Prop :=
  match i with
  | .Add a b c | .Sub a b c => a ≤ 30 ∧ b ≤ 30 ∧ c ≤ 30
  | .AddI a b _ | .SubI a b _ => a ≤ 30 ∧ b ≤ 30
  | .Load a o | .Store a o => a ≤ 30 ∧ o.reg ≤ 30
  | .BranchZero a _ | .BranchNotZero a _ => a ≤ 30
  | _ => True

/-- A comment's text survives the trim and case-fold that `from_str`
applies before parsing. -/
def commentRT (i : Instruction) : Prop :=
  match i with
  | .Comment s =>
      toUpperChars s.data = s.data ∧ trimChars ('/' :: '/' :: s.data) = '/' :: '/' :: s.data
  | _ => True

/-- C2 (amended).  For every instruction accepted by `validate` whose
register indices are all at most 30 and whose comment text (if any) is
unchanged by the trim and upper-casing that parsing applies, rendering
it and re-parsing the text reproduces the instruction.  (The bare
claim fails: see the counterexample — upper-casing rewrites comment
text, and index 31 renders as `X31`, which is not a register token.) -/
theorem parse_render_roundtrip (i : Instruction) (hv : i.validate = some i)
    (hr : regsRT i) (hc : commentRT i) : from_str (render i) = some i := by
  unfold regsRT at hr
  unfold commentRT at hc
  cases i with
  | Add a b c =>
    obtain ⟨ha, hb, hcc⟩ := hr
    have hdata : (render (.Add a b c)).data = 'a':: 'd':: 'd':: ' ':: ' ':: 'X'::(natToDigits a ++ ',':: ' ':: 'X'::(natToDigits b ++ ',':: ' ':: 'X'::natToDigits c)) := by
      simp [render, str_data_append, natStr, data_mk]
    have hsplit : ('a':: 'd':: 'd':: ' ':: ' ':: 'X'::(natToDigits a ++ ',':: ' ':: 'X'::(natToDigits b ++ ',':: ' ':: 'X'::natToDigits c)) : List Char) = ('a':: 'd':: 'd':: ' ':: ' ':: 'X'::(natToDigits a ++ ',':: ' ':: 'X'::(natToDigits b ++ [',', ' ', 'X']))) ++ natToDigits c := by simp
    have htrim : trimChars ('a':: 'd':: 'd':: ' ':: ' ':: 'X'::(natToDigits a ++ ',':: ' ':: 'X'::(natToDigits b ++ ',':: ' ':: 'X'::natToDigits c))) = 'a':: 'd':: 'd':: ' ':: ' ':: 'X'::(natToDigits a ++ ',':: ' ':: 'X'::(natToDigits b ++ ',':: ' ':: 'X'::natToDigits c)) := by
      apply trimChars_eq_self
      · intro x hx
        cases Option.some.inj hx
        decide
      · intro x hx
        rw [hsplit, List.getLast?_append_of_ne_nil _ (natToDigits_ne_nil _)] at hx
        exact (isDig_ne (natToDigits_getLast_dig _ x hx)).2.2.2.2.2.2.2
    have hupper : toUpperChars ('a':: 'd':: 'd':: ' ':: ' ':: 'X'::(natToDigits a ++ ',':: ' ':: 'X'::(natToDigits b ++ ',':: ' ':: 'X'::natToDigits c))) = 'A':: 'D':: 'D':: ' ':: ' ':: 'X'::(natToDigits a ++ ',':: ' ':: 'X'::(natToDigits b ++ ',':: ' ':: 'X'::natToDigits c)) := by
      simp only [toUpperChars, List.map_cons, List.map_append, List.map_nil, map_upper_natToDigits,
        up_a, up_b, up_c, up_d, up_i, up_l, up_n, up_r, up_s, up_t, up_u, up_z,
        up_X, up_sp, up_comma, up_hash, up_lbr, up_rbr]
    unfold from_str
    rw [hdata, htrim, hupper]
    rw [if_neg (by simp)]
    rw [if_neg ?hcmAdd]
    case hcmAdd =>
      simp only [List.take_succ_cons]
      intro hEq
      injection hEq with hE1 hE2
      exact absurd hE1 (by decide)
    change ((parse3R Instruction.Add ('X'::(natToDigits a ++ ',':: ' ':: 'X'::(natToDigits b ++ ',':: ' ':: 'X'::natToDigits c))) <|> none)).bind Instruction.validate
      = some (Instruction.Add a b c)
    rw [Option.orElse_none]
    rw [show ('X'::natToDigits c : List Char) = 'X'::(natToDigits c ++ []) from by simp]
    have h1 := parseRegChars_round a ha (',':: ' ':: 'X'::(natToDigits b ++ ',':: ' ':: 'X'::(natToDigits c ++ [])))
      (noDigHead_cons (by decide) _)
    have h2 := parseRegChars_round b hb (',':: ' ':: 'X'::(natToDigits c ++ []))
      (noDigHead_cons (by decide) _)
    have h3 := parseRegChars_round c hcc [] noDigHead_nil
    simp only [parse3R, h1, Option.some_bind, sepComma_cons, skipSpaces_space,
      skipSpaces_cons_of (show (('X' == ' ') = false) from by decide), h2, h3,
      skipSpaces_nil, List.isEmpty_nil, if_true]
    exact hv
  | Sub a b c =>
    obtain ⟨ha, hb, hcc⟩ := hr
    have hdata : (render (.Sub a b c)).data = 's':: 'u':: 'b':: ' ':: ' ':: 'X'::(natToDigits a ++ ',':: ' ':: 'X'::(natToDigits b ++ ',':: ' ':: 'X'::natToDigits c)) := by
      simp [render, str_data_append, natStr, data_mk]
    have hsplit : ('s':: 'u':: 'b':: ' ':: ' ':: 'X'::(natToDigits a ++ ',':: ' ':: 'X'::(natToDigits b ++ ',':: ' ':: 'X'::natToDigits c)) : List Char) = ('s':: 'u':: 'b':: ' ':: ' ':: 'X'::(natToDigits a ++ ',':: ' ':: 'X'::(natToDigits b ++ [',', ' ', 'X']))) ++ natToDigits c := by simp
    have htrim : trimChars ('s':: 'u':: 'b':: ' ':: ' ':: 'X'::(natToDigits a ++ ',':: ' ':: 'X'::(natToDigits b ++ ',':: ' ':: 'X'::natToDigits c))) = 's':: 'u':: 'b':: ' ':: ' ':: 'X'::(natToDigits a ++ ',':: ' ':: 'X'::(natToDigits b ++ ',':: ' ':: 'X'::natToDigits c)) := by
      apply trimChars_eq_self
      · intro x hx
        cases Option.some.inj hx
        decide
      · intro x hx
        rw [hsplit, List.getLast?_append_of_ne_nil _ (natToDigits_ne_nil _)] at hx
        exact (isDig_ne (natToDigits_getLast_dig _ x hx)).2.2.2.2.2.2.2
    have hupper : toUpperChars ('s':: 'u':: 'b':: ' ':: ' ':: 'X'::(natToDigits a ++ ',':: ' ':: 'X'::(natToDigits b ++ ',':: ' ':: 'X'::natToDigits c))) = 'S':: 'U':: 'B':: ' ':: ' ':: 'X'::(natToDigits a ++ ',':: ' ':: 'X'::(natToDigits b ++ ',':: ' ':: 'X'::natToDigits c)) := by
      simp only [toUpperChars, List.map_cons, List.map_append, List.map_nil, map_upper_natToDigits,
        up_a, up_b, up_c, up_d, up_i, up_l, up_n, up_r, up_s, up_t, up_u, up_z,
        up_X, up_sp, up_comma, up_hash, up_lbr, up_rbr]
    unfold from_str
    rw [hdata, htrim, hupper]
    rw [if_neg (by simp)]
    rw [if_neg ?hcmSub]
    case hcmSub =>
      simp only [List.take_succ_cons]
      intro hEq
      injection hEq with hE1 hE2
      exact absurd hE1 (by decide)
    change ((parse3R Instruction.Sub ('X'::(natToDigits a ++ ',':: ' ':: 'X'::(natToDigits b ++ ',':: ' ':: 'X'::natToDigits c))) <|> none)).bind Instruction.validate
      = some (Instruction.Sub a b c)
    rw [Option.orElse_none]
    rw [show ('X'::natToDigits c : List Char) = 'X'::(natToDigits c ++ []) from by simp]
    have h1 := parseRegChars_round a ha (',':: ' ':: 'X'::(natToDigits b ++ ',':: ' ':: 'X'::(natToDigits c ++ [])))
      (noDigHead_cons (by decide) _)
    have h2 := parseRegChars_round b hb (',':: ' ':: 'X'::(natToDigits c ++ []))
      (noDigHead_cons (by decide) _)
    have h3 := parseRegChars_round c hcc [] noDigHead_nil
    simp only [parse3R, h1, Option.some_bind, sepComma_cons, skipSpaces_space,
      skipSpaces_cons_of (show (('X' == ' ') = false) from by decide), h2, h3,
      skipSpaces_nil, List.isEmpty_nil, if_true]
    exact hv
  | AddI a b lit =>
    obtain ⟨ha, hb⟩ := hr
    have hdata : (render (.AddI a b lit)).data = 'a':: 'd':: 'd':: 'i':: ' ':: 'X'::(natToDigits a ++ ',':: ' ':: 'X'::(natToDigits b ++ ',':: ' ':: '#'::intToDigits lit)) := by
      simp [render, str_data_append, natStr, intStr, data_mk]
    have hsplit : ('a':: 'd':: 'd':: 'i':: ' ':: 'X'::(natToDigits a ++ ',':: ' ':: 'X'::(natToDigits b ++ ',':: ' ':: '#'::intToDigits lit)) : List Char) = ('a':: 'd':: 'd':: 'i':: ' ':: 'X'::(natToDigits a ++ ',':: ' ':: 'X'::(natToDigits b ++ [',', ' ', '#']))) ++ intToDigits lit := by simp
    have htrim : trimChars ('a':: 'd':: 'd':: 'i':: ' ':: 'X'::(natToDigits a ++ ',':: ' ':: 'X'::(natToDigits b ++ ',':: ' ':: '#'::intToDigits lit))) = 'a':: 'd':: 'd':: 'i':: ' ':: 'X'::(natToDigits a ++ ',':: ' ':: 'X'::(natToDigits b ++ ',':: ' ':: '#'::intToDigits lit)) := by
      apply trimChars_eq_self
      · intro x hx
        cases Option.some.inj hx
        decide
      · intro x hx
        rw [hsplit, List.getLast?_append_of_ne_nil _ (intToDigits_ne_nil _)] at hx
        exact (isDig_ne (intToDigits_getLast_dig _ x hx)).2.2.2.2.2.2.2
    have hupper : toUpperChars ('a':: 'd':: 'd':: 'i':: ' ':: 'X'::(natToDigits a ++ ',':: ' ':: 'X'::(natToDigits b ++ ',':: ' ':: '#'::intToDigits lit))) = 'A':: 'D':: 'D':: 'I':: ' ':: 'X'::(natToDigits a ++ ',':: ' ':: 'X'::(natToDigits b ++ ',':: ' ':: '#'::intToDigits lit)) := by
      simp only [toUpperChars, List.map_cons, List.map_append, List.map_nil, map_upper_natToDigits,
        map_upper_intToDigits,
        up_a, up_b, up_c, up_d, up_i, up_l, up_n, up_r, up_s, up_t, up_u, up_z,
        up_X, up_sp, up_comma, up_hash, up_lbr, up_rbr]
    unfold from_str
    rw [hdata, htrim, hupper]
    rw [if_neg (by simp)]
    rw [if_neg ?hcmAddI]
    case hcmAddI =>
      simp only [List.take_succ_cons]
      intro hEq
      injection hEq with hE1 hE2
      exact absurd hE1 (by decide)
    change ((parseRRI Instruction.AddI ('X'::(natToDigits a ++ ',':: ' ':: 'X'::(natToDigits b ++ ',':: ' ':: '#'::intToDigits lit))) <|> none)).bind Instruction.validate
      = some (Instruction.AddI a b lit)
    rw [Option.orElse_none]
    rw [show ('#'::intToDigits lit : List Char) = '#'::(intToDigits lit ++ []) from by simp]
    have h1 := parseRegChars_round a ha (',':: ' ':: 'X'::(natToDigits b ++ ',':: ' ':: '#'::(intToDigits lit ++ [])))
      (noDigHead_cons (by decide) _)
    have h2 := parseRegChars_round b hb (',':: ' ':: '#'::(intToDigits lit ++ []))
      (noDigHead_cons (by decide) _)
    have h3 := parseLit_round lit [] noDigHead_nil
    simp only [parseRRI, h1, Option.some_bind, sepComma_cons, skipSpaces_space,
      skipSpaces_cons_of (show (('X' == ' ') = false) from by decide),
      skipSpaces_cons_of (show (('#' == ' ') = false) from by decide), h2, h3,
      skipSpaces_nil, List.isEmpty_nil, if_true]
    exact hv
  | SubI a b lit =>
    obtain ⟨ha, hb⟩ := hr
    have hdata : (render (.SubI a b lit)).data = 's':: 'u':: 'b':: 'i':: ' ':: 'X'::(natToDigits a ++ ',':: ' ':: 'X'::(natToDigits b ++ ',':: ' ':: '#'::intToDigits lit)) := by
      simp [render, str_data_append, natStr, intStr, data_mk]
    have hsplit : ('s':: 'u':: 'b':: 'i':: ' ':: 'X'::(natToDigits a ++ ',':: ' ':: 'X'::(natToDigits b ++ ',':: ' ':: '#'::intToDigits lit)) : List Char) = ('s':: 'u':: 'b':: 'i':: ' ':: 'X'::(natToDigits a ++ ',':: ' ':: 'X'::(natToDigits b ++ [',', ' ', '#']))) ++ intToDigits lit := by simp
    have htrim : trimChars ('s':: 'u':: 'b':: 'i':: ' ':: 'X'::(natToDigits a ++ ',':: ' ':: 'X'::(natToDigits b ++ ',':: ' ':: '#'::intToDigits lit))) = 's':: 'u':: 'b':: 'i':: ' ':: 'X'::(natToDigits a ++ ',':: ' ':: 'X'::(natToDigits b ++ ',':: ' ':: '#'::intToDigits lit)) := by
      apply trimChars_eq_self
      · intro x hx
        cases Option.some.inj hx
        decide
      · intro x hx
        rw [hsplit, List.getLast?_append_of_ne_nil _ (intToDigits_ne_nil _)] at hx
        exact (isDig_ne (intToDigits_getLast_dig _ x hx)).2.2.2.2.2.2.2
    have hupper : toUpperChars ('s':: 'u':: 'b':: 'i':: ' ':: 'X'::(natToDigits a ++ ',':: ' ':: 'X'::(natToDigits b ++ ',':: ' ':: '#'::intToDigits lit))) = 'S':: 'U':: 'B':: 'I':: ' ':: 'X'::(natToDigits a ++ ',':: ' ':: 'X'::(natToDigits b ++ ',':: ' ':: '#'::intToDigits lit)) := by
      simp only [toUpperChars, List.map_cons, List.map_append, List.map_nil, map_upper_natToDigits,
        map_upper_intToDigits,
        up_a, up_b, up_c, up_d, up_i, up_l, up_n, up_r, up_s, up_t, up_u, up_z,
        up_X, up_sp, up_comma, up_hash, up_lbr, up_rbr]
    unfold from_str
    rw [hdata, htrim, hupper]
    rw [if_neg (by simp)]
    rw [if_neg ?hcmSubI]
    case hcmSubI =>
      simp only [List.take_succ_cons]
      intro hEq
      injection hEq with hE1 hE2
      exact absurd hE1 (by decide)
    change ((parseRRI Instruction.SubI ('X'::(natToDigits a ++ ',':: ' ':: 'X'::(natToDigits b ++ ',':: ' ':: '#'::intToDigits lit))) <|> none)).bind Instruction.validate
      = some (Instruction.SubI a b lit)
    rw [Option.orElse_none]
    rw [show ('#'::intToDigits lit : List Char) = '#'::(intToDigits lit ++ []) from by simp]
    have h1 := parseRegChars_round a ha (',':: ' ':: 'X'::(natToDigits b ++ ',':: ' ':: '#'::(intToDigits lit ++ [])))
      (noDigHead_cons (by decide) _)
    have h2 := parseRegChars_round b hb (',':: ' ':: '#'::(intToDigits lit ++ []))
      (noDigHead_cons (by decide) _)
    have h3 := parseLit_round lit [] noDigHead_nil
    simp only [parseRRI, h1, Option.some_bind, sepComma_cons, skipSpaces_space,
      skipSpaces_cons_of (show (('X' == ' ') = false) from by decide),
      skipSpaces_cons_of (show (('#' == ' ') = false) from by decide), h2, h3,
      skipSpaces_nil, List.isEmpty_nil, if_true]
    exact hv
  | Load a o =>
    obtain ⟨r, z⟩ := o
    obtain ⟨ha, hrr⟩ := hr
    have hdata : (render (.Load a ⟨r, z⟩)).data = 'l':: 'd':: 'u':: 'r':: ' ':: 'X'::(natToDigits a ++ ',':: ' ':: '[':: 'X'::(natToDigits r ++ ',':: ' ':: '#'::(intToDigits z ++ [']']))) := by
      simp [render, str_data_append, natStr, intStr, data_mk]
    have hsplit : ('l':: 'd':: 'u':: 'r':: ' ':: 'X'::(natToDigits a ++ ',':: ' ':: '[':: 'X'::(natToDigits r ++ ',':: ' ':: '#'::(intToDigits z ++ [']']))) : List Char) = ('l':: 'd':: 'u':: 'r':: ' ':: 'X'::(natToDigits a ++ ',':: ' ':: '[':: 'X'::(natToDigits r ++ ',':: ' ':: '#'::intToDigits z))) ++ [']'] := by simp
    have htrim : trimChars ('l':: 'd':: 'u':: 'r':: ' ':: 'X'::(natToDigits a ++ ',':: ' ':: '[':: 'X'::(natToDigits r ++ ',':: ' ':: '#'::(intToDigits z ++ [']'])))) = 'l':: 'd':: 'u':: 'r':: ' ':: 'X'::(natToDigits a ++ ',':: ' ':: '[':: 'X'::(natToDigits r ++ ',':: ' ':: '#'::(intToDigits z ++ [']']))) := by
      apply trimChars_eq_self
      · intro x hx
        cases Option.some.inj hx
        decide
      · intro x hx
        rw [hsplit, List.getLast?_append_of_ne_nil _ (by simp : ([']'] : List Char) ≠ [])] at hx
        cases Option.some.inj hx
        decide
    have hupper : toUpperChars ('l':: 'd':: 'u':: 'r':: ' ':: 'X'::(natToDigits a ++ ',':: ' ':: '[':: 'X'::(natToDigits r ++ ',':: ' ':: '#'::(intToDigits z ++ [']'])))) = 'L':: 'D':: 'U':: 'R':: ' ':: 'X'::(natToDigits a ++ ',':: ' ':: '[':: 'X'::(natToDigits r ++ ',':: ' ':: '#'::(intToDigits z ++ [']']))) := by
      simp only [toUpperChars, List.map_cons, List.map_append, List.map_nil, map_upper_natToDigits,
        map_upper_intToDigits,
        up_a, up_b, up_c, up_d, up_i, up_l, up_n, up_r, up_s, up_t, up_u, up_z,
        up_X, up_sp, up_comma, up_hash, up_lbr, up_rbr]
    unfold from_str
    rw [hdata, htrim, hupper]
    rw [if_neg (by simp)]
    rw [if_neg ?hcmLoad]
    case hcmLoad =>
      simp only [List.take_succ_cons]
      intro hEq
      injection hEq with hE1 hE2
      exact absurd hE1 (by decide)
    change ((parseMem Instruction.Load ('X'::(natToDigits a ++ ',':: ' ':: '[':: 'X'::(natToDigits r ++ ',':: ' ':: '#'::(intToDigits z ++ [']'])))) <|> none)).bind Instruction.validate
      = some (Instruction.Load a ⟨r, z⟩)
    rw [Option.orElse_none]
    have h1 := parseRegChars_round a ha (',':: ' ':: '[':: 'X'::(natToDigits r ++ ',':: ' ':: '#'::(intToDigits z ++ [']'])))
      (noDigHead_cons (by decide) _)
    have h2 := parseRegChars_round r hrr (',':: ' ':: '#'::(intToDigits z ++ [']']))
      (noDigHead_cons (by decide) _)
    have h3 := parseLit_round z [']'] (noDigHead_cons (by decide) _)
    simp only [parseMem, h1, Option.some_bind, sepComma_cons, skipSpaces_space,
      skipSpaces_cons_of (show (('X' == ' ') = false) from by decide),
      skipSpaces_cons_of (show (('[' == ' ') = false) from by decide),
      skipSpaces_cons_of (show (('#' == ' ') = false) from by decide),
      skipSpaces_cons_of (show ((']' == ' ') = false) from by decide), h2, h3,
      skipSpaces_nil, List.isEmpty_nil, if_true]
    exact hv
  | Store a o =>
    obtain ⟨r, z⟩ := o
    obtain ⟨ha, hrr⟩ := hr
    have hdata : (render (.Store a ⟨r, z⟩)).data = 's':: 't':: 'u':: 'r':: ' ':: 'X'::(natToDigits a ++ ',':: ' ':: '[':: 'X'::(natToDigits r ++ ',':: ' ':: '#'::(intToDigits z ++ [']']))) := by
      simp [render, str_data_append, natStr, intStr, data_mk]
    have hsplit : ('s':: 't':: 'u':: 'r':: ' ':: 'X'::(natToDigits a ++ ',':: ' ':: '[':: 'X'::(natToDigits r ++ ',':: ' ':: '#'::(intToDigits z ++ [']']))) : List Char) = ('s':: 't':: 'u':: 'r':: ' ':: 'X'::(natToDigits a ++ ',':: ' ':: '[':: 'X'::(natToDigits r ++ ',':: ' ':: '#'::intToDigits z))) ++ [']'] := by simp
    have htrim : trimChars ('s':: 't':: 'u':: 'r':: ' ':: 'X'::(natToDigits a ++ ',':: ' ':: '[':: 'X'::(natToDigits r ++ ',':: ' ':: '#'::(intToDigits z ++ [']'])))) = 's':: 't':: 'u':: 'r':: ' ':: 'X'::(natToDigits a ++ ',':: ' ':: '[':: 'X'::(natToDigits r ++ ',':: ' ':: '#'::(intToDigits z ++ [']']))) := by
      apply trimChars_eq_self
      · intro x hx
        cases Option.some.inj hx
        decide
      · intro x hx
        rw [hsplit, List.getLast?_append_of_ne_nil _ (by simp : ([']'] : List Char) ≠ [])] at hx
        cases Option.some.inj hx
        decide
    have hupper : toUpperChars ('s':: 't':: 'u':: 'r':: ' ':: 'X'::(natToDigits a ++ ',':: ' ':: '[':: 'X'::(natToDigits r ++ ',':: ' ':: '#'::(intToDigits z ++ [']'])))) = 'S':: 'T':: 'U':: 'R':: ' ':: 'X'::(natToDigits a ++ ',':: ' ':: '[':: 'X'::(natToDigits r ++ ',':: ' ':: '#'::(intToDigits z ++ [']']))) := by
      simp only [toUpperChars, List.map_cons, List.map_append, List.map_nil, map_upper_natToDigits,
        map_upper_intToDigits,
        up_a, up_b, up_c, up_d, up_i, up_l, up_n, up_r, up_s, up_t, up_u, up_z,
        up_X, up_sp, up_comma, up_hash, up_lbr, up_rbr]
    unfold from_str
    rw [hdata, htrim, hupper]
    rw [if_neg (by simp)]
    rw [if_neg ?hcmStore]
    case hcmStore =>
      simp only [List.take_succ_cons]
      intro hEq
      injection hEq with hE1 hE2
      exact absurd hE1 (by decide)
    change ((parseMem Instruction.Store ('X'::(natToDigits a ++ ',':: ' ':: '[':: 'X'::(natToDigits r ++ ',':: ' ':: '#'::(intToDigits z ++ [']'])))) <|> none)).bind Instruction.validate
      = some (Instruction.Store a ⟨r, z⟩)
    rw [Option.orElse_none]
    have h1 := parseRegChars_round a ha (',':: ' ':: '[':: 'X'::(natToDigits r ++ ',':: ' ':: '#'::(intToDigits z ++ [']'])))
      (noDigHead_cons (by decide) _)
    have h2 := parseRegChars_round r hrr (',':: ' ':: '#'::(intToDigits z ++ [']']))
      (noDigHead_cons (by decide) _)
    have h3 := parseLit_round z [']'] (noDigHead_cons (by decide) _)
    simp only [parseMem, h1, Option.some_bind, sepComma_cons, skipSpaces_space,
      skipSpaces_cons_of (show (('X' == ' ') = false) from by decide),
      skipSpaces_cons_of (show (('[' == ' ') = false) from by decide),
      skipSpaces_cons_of (show (('#' == ' ') = false) from by decide),
      skipSpaces_cons_of (show ((']' == ' ') = false) from by decide), h2, h3,
      skipSpaces_nil, List.isEmpty_nil, if_true]
    exact hv
  | Branch lit =>
    have hdata : (render (.Branch lit)).data = 'b':: ' ':: ' ':: ' ':: ' ':: '#'::intToDigits lit := by
      simp [render, str_data_append, intStr, data_mk]
    have hsplit : ('b':: ' ':: ' ':: ' ':: ' ':: '#'::intToDigits lit : List Char) = (['b', ' ', ' ', ' ', ' ', '#'] : List Char) ++ intToDigits lit := by simp
    have htrim : trimChars ('b':: ' ':: ' ':: ' ':: ' ':: '#'::intToDigits lit) = 'b':: ' ':: ' ':: ' ':: ' ':: '#'::intToDigits lit := by
      apply trimChars_eq_self
      · intro x hx
        cases Option.some.inj hx
        decide
      · intro x hx
        rw [hsplit, List.getLast?_append_of_ne_nil _ (intToDigits_ne_nil _)] at hx
        exact (isDig_ne (intToDigits_getLast_dig _ x hx)).2.2.2.2.2.2.2
    have hupper : toUpperChars ('b':: ' ':: ' ':: ' ':: ' ':: '#'::intToDigits lit)
        = 'B':: ' ':: ' ':: ' ':: ' ':: '#'::intToDigits lit := by
      simp only [toUpperChars, List.map_cons, List.map_append, List.map_nil, map_upper_intToDigits,
        up_b, up_sp, up_hash]
    unfold from_str
    rw [hdata, htrim, hupper]
    rw [if_neg (by simp)]
    rw [if_neg ?hcmB]
    case hcmB =>
      simp only [List.take_succ_cons]
      intro hEq
      injection hEq with hE1 hE2
      exact absurd hE1 (by decide)
    change (parseB ('#'::intToDigits lit)).bind Instruction.validate = some (Instruction.Branch lit)
    rw [show ('#'::intToDigits lit : List Char) = '#'::(intToDigits lit ++ []) from by simp]
    have h3 := parseLit_round lit [] noDigHead_nil
    simp only [parseB, h3, Option.some_bind, skipSpaces_nil, List.isEmpty_nil, if_true]
    exact hv
  | BranchZero a lit =>
    have ha : a ≤ 30 := hr
    have hdata : (render (.BranchZero a lit)).data = 'c':: 'b':: 'z':: ' ':: ' ':: 'X'::(natToDigits a ++ ',':: ' ':: '#'::intToDigits lit) := by
      simp [render, str_data_append, natStr, intStr, data_mk]
    have hsplit : ('c':: 'b':: 'z':: ' ':: ' ':: 'X'::(natToDigits a ++ ',':: ' ':: '#'::intToDigits lit) : List Char) = ('c':: 'b':: 'z':: ' ':: ' ':: 'X'::(natToDigits a ++ [',', ' ', '#'])) ++ intToDigits lit := by simp
    have htrim : trimChars ('c':: 'b':: 'z':: ' ':: ' ':: 'X'::(natToDigits a ++ ',':: ' ':: '#'::intToDigits lit)) = 'c':: 'b':: 'z':: ' ':: ' ':: 'X'::(natToDigits a ++ ',':: ' ':: '#'::intToDigits lit) := by
      apply trimChars_eq_self
      · intro x hx
        cases Option.some.inj hx
        decide
      · intro x hx
        rw [hsplit, List.getLast?_append_of_ne_nil _ (intToDigits_ne_nil _)] at hx
        exact (isDig_ne (intToDigits_getLast_dig _ x hx)).2.2.2.2.2.2.2
    have hupper : toUpperChars ('c':: 'b':: 'z':: ' ':: ' ':: 'X'::(natToDigits a ++ ',':: ' ':: '#'::intToDigits lit)) = 'C':: 'B':: 'Z':: ' ':: ' ':: 'X'::(natToDigits a ++ ',':: ' ':: '#'::intToDigits lit) := by
      simp only [toUpperChars, List.map_cons, List.map_append, List.map_nil, map_upper_natToDigits,
        map_upper_intToDigits,
        up_a, up_b, up_c, up_d, up_i, up_l, up_n, up_r, up_s, up_t, up_u, up_z,
        up_X, up_sp, up_comma, up_hash]
    unfold from_str
    rw [hdata, htrim, hupper]
    rw [if_neg (by simp)]
    rw [if_neg ?hcmBranchZero]
    case hcmBranchZero =>
      simp only [List.take_succ_cons]
      intro hEq
      injection hEq with hE1 hE2
      exact absurd hE1 (by decide)
    change ((parseRI Instruction.BranchZero ('X'::(natToDigits a ++ ',':: ' ':: '#'::intToDigits lit)) <|> none)).bind Instruction.validate
      = some (Instruction.BranchZero a lit)
    rw [Option.orElse_none]
    rw [show ('#'::intToDigits lit : List Char) = '#'::(intToDigits lit ++ []) from by simp]
    have h1 := parseRegChars_round a ha (',':: ' ':: '#'::(intToDigits lit ++ []))
      (noDigHead_cons (by decide) _)
    have h3 := parseLit_round lit [] noDigHead_nil
    simp only [parseRI, h1, Option.some_bind, sepComma_cons, skipSpaces_space,
      skipSpaces_cons_of (show (('#' == ' ') = false) from by decide), h3,
      skipSpaces_nil, List.isEmpty_nil, if_true]
    exact hv
  | BranchNotZero a lit =>
    have ha : a ≤ 30 := hr
    have hdata : (render (.BranchNotZero a lit)).data = 'c':: 'b':: 'n':: 'z':: ' ':: 'X'::(natToDigits a ++ ',':: ' ':: '#'::intToDigits lit) := by
      simp [render, str_data_append, natStr, intStr, data_mk]
    have hsplit : ('c':: 'b':: 'n':: 'z':: ' ':: 'X'::(natToDigits a ++ ',':: ' ':: '#'::intToDigits lit) : List Char) = ('c':: 'b':: 'n':: 'z':: ' ':: 'X'::(natToDigits a ++ [',', ' ', '#'])) ++ intToDigits lit := by simp
    have htrim : trimChars ('c':: 'b':: 'n':: 'z':: ' ':: 'X'::(natToDigits a ++ ',':: ' ':: '#'::intToDigits lit)) = 'c':: 'b':: 'n':: 'z':: ' ':: 'X'::(natToDigits a ++ ',':: ' ':: '#'::intToDigits lit) := by
      apply trimChars_eq_self
      · intro x hx
        cases Option.some.inj hx
        decide
      · intro x hx
        rw [hsplit, List.getLast?_append_of_ne_nil _ (intToDigits_ne_nil _)] at hx
        exact (isDig_ne (intToDigits_getLast_dig _ x hx)).2.2.2.2.2.2.2
    have hupper : toUpperChars ('c':: 'b':: 'n':: 'z':: ' ':: 'X'::(natToDigits a ++ ',':: ' ':: '#'::intToDigits lit)) = 'C':: 'B':: 'N':: 'Z':: ' ':: 'X'::(natToDigits a ++ ',':: ' ':: '#'::intToDigits lit) := by
      simp only [toUpperChars, List.map_cons, List.map_append, List.map_nil, map_upper_natToDigits,
        map_upper_intToDigits,
        up_a, up_b, up_c, up_d, up_i, up_l, up_n, up_r, up_s, up_t, up_u, up_z,
        up_X, up_sp, up_comma, up_hash]
    unfold from_str
    rw [hdata, htrim, hupper]
    rw [if_neg (by simp)]
    rw [if_neg ?hcmBranchNotZero]
    case hcmBranchNotZero =>
      simp only [List.take_succ_cons]
      intro hEq
      injection hEq with hE1 hE2
      exact absurd hE1 (by decide)
    change ((parseRI Instruction.BranchNotZero ('X'::(natToDigits a ++ ',':: ' ':: '#'::intToDigits lit)) <|> none)).bind Instruction.validate
      = some (Instruction.BranchNotZero a lit)
    rw [Option.orElse_none]
    rw [show ('#'::intToDigits lit : List Char) = '#'::(intToDigits lit ++ []) from by simp]
    have h1 := parseRegChars_round a ha (',':: ' ':: '#'::(intToDigits lit ++ []))
      (noDigHead_cons (by decide) _)
    have h3 := parseLit_round lit [] noDigHead_nil
    simp only [parseRI, h1, Option.some_bind, sepComma_cons, skipSpaces_space,
      skipSpaces_cons_of (show (('#' == ' ') = false) from by decide), h3,
      skipSpaces_nil, List.isEmpty_nil, if_true]
    exact hv
  | None => decide
  | Comment s =>
    obtain ⟨hcu, hct⟩ := hc
    have hdata : (render (.Comment s)).data = '/':: '/'::s.data := by
      simp [render, str_data_append]
    have hupper : toUpperChars ('/':: '/'::s.data) = '/':: '/'::s.data := by
      simp only [toUpperChars, List.map_cons, up_slash]
      rw [show List.map Char.toUpper s.data = s.data from hcu]
    unfold from_str
    rw [hdata, hct, hupper]
    rw [if_neg (by simp)]
    rw [if_pos (show (('/':: '/'::s.data : List Char)).take 2 = ['/', '/'] from rfl)]
    rw [show (('/':: '/'::s.data : List Char)).drop 2 = s.data from rfl, str_mk_data]

/-- Counterexample for C2 as stated: `Comment "a"` passes validation,
renders as `//a`, but re-parses to `Comment "A"` because `from_str`
upper-cases the line before the comment text is captured. -/
theorem parse_render_roundtrip_counterexample :
    (Instruction.Comment "a").validate = some (.Comment "a")
    ∧ from_str (render (.Comment "a")) = some (.Comment "A")
    ∧ Instruction.Comment "A" ≠ Instruction.Comment "a" := by
  refine ⟨by decide, by decide, by decide⟩

/-- Witness for the amended C2 at a concrete boundary input:
`addi X0, X1, #4095` round-trips. -/
theorem parse_render_roundtrip_witness :
    from_str (render (.AddI 0 1 4095)) = some (.AddI 0 1 4095) :=
  parse_render_roundtrip (.AddI 0 1 4095) (by decide) (by simp [regsRT]) (by simp [commentRT])

/-! ### Claim C10: comment lines -/

/-- Counterexample for C10 as stated: in the (trimmed) input `//a`
the text after the marker is `"a"`, yet parsing yields
`Comment "A"` — the text is upper-cased, not preserved verbatim. -/
theorem comment_verbatim_counterexample :
    from_str "//a" = some (.Comment "A")
    ∧ Instruction.Comment "A" ≠ Instruction.Comment "a" := by
  refine ⟨by decide, by decide⟩

/-- C10 (amended).  For every input line whose trimmed, upper-cased
form is the comment marker followed by some text, parsing yields
`Comment(t)` where `t` is exactly the text following the marker in the
trimmed **and upper-cased** input, with no further processing. -/
theorem comment_verbatim (s : String) (rest : List Char)
    (h : toUpperChars (trimChars s.data) = '/' :: '/' :: rest) :
    from_str s = some (.Comment (String.mk rest)) := by
  unfold from_str
  rw [h]
  rw [if_neg (by simp)]
  rw [if_pos (show (('/' :: '/' :: rest : List Char)).take 2 = ['/', '/'] from rfl)]
  rw [show (('/' :: '/' :: rest : List Char)).drop 2 = rest from rfl]

/-- Witness for the amended C10: `  // hi` parses to
`Comment " HI"` (the text after the marker in the trimmed,
upper-cased line). -/
theorem comment_verbatim_witness :
    from_str "  // hi" = some (.Comment " HI") :=
  comment_verbatim "  // hi" (' ' :: 'H' :: 'I' :: []) (by decide)

/-! ### Claim C9: parsed register indices and runtime failures -/

/-- All register indices of an instruction lie in 0..=31. -/
def regsBounded (i : Instruction) : Prop :=
  match i with
  | .Add a b c | .Sub a b c => a ≤ 31 ∧ b ≤ 31 ∧ c ≤ 31
  | .AddI a b _ | .SubI a b _ => a ≤ 31 ∧ b ≤ 31
  | .Load a o | .Store a o => a ≤ 31 ∧ o.reg ≤ 31
  | .BranchZero a _ | .BranchNotZero a _ => a ≤ 31
  | _ => True

/-- A parsed register token is `XZR` (31) or a number at most 30. -/
lemma parseRegChars_le {l : List Char} {p : Nat × List Char}
    (h : parseRegChars l = some p) : p.1 ≤ 31 := by
  unfold parseRegChars at h
  split at h
  · cases h
    simp
  · split at h
    · cases hd : parseDigits _ with
      | none => rw [hd] at h; cases h
      | some q =>
          rw [hd, Option.some_bind] at h
          split at h
          · cases h
            omega
          · cases h
    · cases h

/-- Inversion for `parse3R`: the result's registers are bounded. -/
lemma parse3R_inv {mk : Nat → Nat → Nat → Instruction} {l : List Char} {i : Instruction}
    (h : parse3R mk l = some i) :
    ∃ a b c, a ≤ 31 ∧ b ≤ 31 ∧ c ≤ 31 ∧ i = mk a b c := by
  unfold parse3R at h
  rw [Option.bind_eq_some] at h
  obtain ⟨p1, h1, h⟩ := h
  rw [Option.bind_eq_some] at h
  obtain ⟨l2, h2, h⟩ := h
  rw [Option.bind_eq_some] at h
  obtain ⟨p2, h3, h⟩ := h
  rw [Option.bind_eq_some] at h
  obtain ⟨l3, h4, h⟩ := h
  rw [Option.bind_eq_some] at h
  obtain ⟨p3, h5, h⟩ := h
  split at h
  · cases h
    exact ⟨p1.1, p2.1, p3.1, parseRegChars_le h1, parseRegChars_le h3,
      parseRegChars_le h5, rfl⟩
  · cases h

/-- Inversion for `parseRRI`: the result's registers are bounded. -/
lemma parseRRI_inv {mk : Nat → Nat → Int → Instruction} {l : List Char} {i : Instruction}
    (h : parseRRI mk l = some i) :
    ∃ a b z, a ≤ 31 ∧ b ≤ 31 ∧ i = mk a b z := by
  unfold parseRRI at h
  rw [Option.bind_eq_some] at h
  obtain ⟨p1, h1, h⟩ := h
  rw [Option.bind_eq_some] at h
  obtain ⟨l2, h2, h⟩ := h
  rw [Option.bind_eq_some] at h
  obtain ⟨p2, h3, h⟩ := h
  rw [Option.bind_eq_some] at h
  obtain ⟨l3, h4, h⟩ := h
  rw [Option.bind_eq_some] at h
  obtain ⟨p3, h5, h⟩ := h
  split at h
  · cases h
    exact ⟨p1.1, p2.1, p3.1, parseRegChars_le h1, parseRegChars_le h3, rfl⟩
  · cases h

/-- Inversion for `parseMem`: the result's registers are bounded. -/
lemma parseMem_inv {mk : Nat → Offset → Instruction} {l : List Char} {i : Instruction}
    (h : parseMem mk l = some i) :
    ∃ a r z, a ≤ 31 ∧ r ≤ 31 ∧ i = mk a ⟨r, z⟩ := by
  unfold parseMem at h
  rw [Option.bind_eq_some] at h
  obtain ⟨p1, h1, h⟩ := h
  rw [Option.bind_eq_some] at h
  obtain ⟨l2, h2, h⟩ := h
  rw [Option.bind_eq_some] at h
  obtain ⟨l3, h3, h⟩ := h
  rw [Option.bind_eq_some] at h
  obtain ⟨p2, h4, h⟩ := h
  rw [Option.bind_eq_some] at h
  obtain ⟨l4, h5, h⟩ := h
  rw [Option.bind_eq_some] at h
  obtain ⟨p3, h6, h⟩ := h
  rw [Option.bind_eq_some] at h
  obtain ⟨l5, h7, h⟩ := h
  split at h
  · cases h
    exact ⟨p1.1, p2.1, p3.1, parseRegChars_le h1, parseRegChars_le h4, rfl⟩
  · cases h

/-- Inversion for `parseB`. -/
lemma parseB_inv {l : List Char} {i : Instruction}
    (h : parseB l = some i) : ∃ z, i = .Branch z := by
  unfold parseB at h
  rw [Option.bind_eq_some] at h
  obtain ⟨p, h1, h⟩ := h
  split at h
  · cases h
    exact ⟨p.1, rfl⟩
  · cases h

/-- Inversion for `parseRI`: the result's register is bounded. -/
lemma parseRI_inv {mk : Nat → Int → Instruction} {l : List Char} {i : Instruction}
    (h : parseRI mk l = some i) : ∃ a z, a ≤ 31 ∧ i = mk a z := by
  unfold parseRI at h
  rw [Option.bind_eq_some] at h
  obtain ⟨p1, h1, h⟩ := h
  rw [Option.bind_eq_some] at h
  obtain ⟨l2, h2, h⟩ := h
  rw [Option.bind_eq_some] at h
  obtain ⟨p2, h3, h⟩ := h
  split at h
  · cases h
    exact ⟨p1.1, p2.1, parseRegChars_le h1, rfl⟩
  · cases h

/-- Splitting an `orElse` that produced a value. -/
lemma orElse_some {x y : Option Instruction} {i : Instruction}
    (h : (x <|> y) = some i) : x = some i ∨ y = some i := by
  cases x with
  | none => right; simpa using h
  | some a => left; simpa using h

/-- Splitting a keyword-guarded parse that produced a value. -/
lemma bind_afterKw_some {kw l : List Char} {f : List Char → Option Instruction}
    {i : Instruction} (h : (afterKw kw l).bind f = some i) : ∃ r, f r = some i := by
  rw [Option.bind_eq_some] at h
  obtain ⟨r, hk, hr⟩ := h
  exact ⟨r, hr⟩

/-- Any instruction produced by the grammar has bounded registers. -/
lemma parseInstrChars_bounded {l : List Char} {i : Instruction}
    (h : parseInstrChars l = some i) : regsBounded i := by
  unfold parseInstrChars at h
  rcases orElse_some h with h | h
  · rcases bind_afterKw_some h with ⟨r, hr⟩
    rcases parseRRI_inv hr with ⟨a, b, z, ha, hb, rfl⟩
    exact ⟨ha, hb⟩
  rcases orElse_some h with h | h
  · rcases bind_afterKw_some h with ⟨r, hr⟩
    rcases parseRRI_inv hr with ⟨a, b, z, ha, hb, rfl⟩
    exact ⟨ha, hb⟩
  rcases orElse_some h with h | h
  · rcases bind_afterKw_some h with ⟨r, hr⟩
    rcases parseMem_inv hr with ⟨a, rr, z, ha, hrr, rfl⟩
    exact ⟨ha, hrr⟩
  rcases orElse_some h with h | h
  · rcases bind_afterKw_some h with ⟨r, hr⟩
    rcases parseMem_inv hr with ⟨a, rr, z, ha, hrr, rfl⟩
    exact ⟨ha, hrr⟩
  rcases orElse_some h with h | h
  · rcases bind_afterKw_some h with ⟨r, hr⟩
    rcases parseRI_inv hr with ⟨a, z, ha, rfl⟩
    exact ha
  rcases orElse_some h with h | h
  · rcases bind_afterKw_some h with ⟨r, hr⟩
    rcases parseRI_inv hr with ⟨a, z, ha, rfl⟩
    exact ha
  rcases orElse_some h with h | h
  · rcases bind_afterKw_some h with ⟨r, hr⟩
    rcases parse3R_inv hr with ⟨a, b, c, ha, hb, hcc, rfl⟩
    exact ⟨ha, hb, hcc⟩
  rcases orElse_some h with h | h
  · rcases bind_afterKw_some h with ⟨r, hr⟩
    rcases parse3R_inv hr with ⟨a, b, c, ha, hb, hcc, rfl⟩
    exact ⟨ha, hb, hcc⟩
  · rcases bind_afterKw_some h with ⟨r, hr⟩
    rcases parseB_inv hr with ⟨z, rfl⟩
    trivial

/-- `validate` returns its argument when it succeeds. -/
lemma validate_some_eq {i j : Instruction} (h : i.validate = some j) : j = i := by
  cases i <;> simp only [Instruction.validate] at h <;>
    first
      | (split at h
         · cases h
         · exact (Option.some.inj h).symm)
      | exact (Option.some.inj h).symm

/-- With bounded registers, the only step failure is an alignment
error. -/
lemma tickStep_error_align {s : Simulator} {i : Instruction} {e : ExecError}
    (hb : regsBounded i) (h : tickStep s i = .error e) : ∃ a, e = .alignment a := by
  cases i with
  | Add r0 r1 r2 =>
      obtain ⟨h0, h1, h2⟩ := hb
      simp only [tickStep] at h
      obtain ⟨v1, hv1⟩ := s.registers.get_ok_of_le r1 h1
      obtain ⟨v2, hv2⟩ := s.registers.get_ok_of_le r2 h2
      obtain ⟨rg, hrg⟩ := s.registers.set_ok_of_le r0 ((v1 + v2) % 18446744073709551616) h0
      rw [hv1, bindOkE, hv2, bindOkE, hrg, bindOkE, pureOkE] at h
      cases h
  | Sub r0 r1 r2 =>
      obtain ⟨h0, h1, h2⟩ := hb
      simp only [tickStep] at h
      obtain ⟨v1, hv1⟩ := s.registers.get_ok_of_le r1 h1
      obtain ⟨v2, hv2⟩ := s.registers.get_ok_of_le r2 h2
      obtain ⟨rg, hrg⟩ := s.registers.set_ok_of_le r0 (wrap64 ((v1 : Int) - (v2 : Int))) h0
      rw [hv1, bindOkE, hv2, bindOkE, hrg, bindOkE, pureOkE] at h
      cases h
  | AddI r0 r1 lit =>
      obtain ⟨h0, h1⟩ := hb
      simp only [tickStep] at h
      obtain ⟨v1, hv1⟩ := s.registers.get_ok_of_le r1 h1
      obtain ⟨rg, hrg⟩ := s.registers.set_ok_of_le r0 ((v1 + toU64 lit) % 18446744073709551616) h0
      rw [hv1, bindOkE, hrg, bindOkE, pureOkE] at h
      cases h
  | SubI r0 r1 lit =>
      obtain ⟨h0, h1⟩ := hb
      simp only [tickStep] at h
      obtain ⟨v1, hv1⟩ := s.registers.get_ok_of_le r1 h1
      obtain ⟨rg, hrg⟩ := s.registers.set_ok_of_le r0 (wrap64 ((v1 : Int) - (toU64 lit : Int))) h0
      rw [hv1, bindOkE, hrg, bindOkE, pureOkE] at h
      cases h
  | Load r0 o =>
      obtain ⟨r1, off⟩ := o
      obtain ⟨h0, h1⟩ := hb
      simp only [tickStep] at h
      obtain ⟨addr, haddr⟩ := s.registers.get_ok_of_le r1 h1
      rw [haddr, bindOkE] at h
      cases hm : s.memory.get (wrap64 ((addr : Int) + off)) with
      | error em =>
          rw [hm, bindErrE] at h
          cases h
          exact ⟨_, (Memory.get_alignment_error hm).1⟩
      | ok v =>
          rw [hm, bindOkE] at h
          obtain ⟨rg, hrg⟩ := s.registers.set_ok_of_le r0 v h0
          rw [hrg, bindOkE, pureOkE] at h
          cases h
  | Store r0 o =>
      obtain ⟨r1, off⟩ := o
      obtain ⟨h0, h1⟩ := hb
      simp only [tickStep] at h
      obtain ⟨addr, haddr⟩ := s.registers.get_ok_of_le r1 h1
      obtain ⟨v, hv⟩ := s.registers.get_ok_of_le r0 h0
      rw [haddr, bindOkE, hv, bindOkE] at h
      cases hm : s.memory.set (wrap64 ((addr : Int) + off)) v with
      | error em =>
          rw [hm, bindErrE] at h
          cases h
          exact ⟨_, (Memory.set_alignment_error hm).1⟩
      | ok m2 =>
          rw [hm, bindOkE, pureOkE] at h
          cases h
  | Branch off =>
      simp only [tickStep, pureOkE] at h
      cases h
  | BranchZero r0 off =>
      simp only [tickStep] at h
      obtain ⟨v, hv⟩ := s.registers.get_ok_of_le r0 hb
      rw [hv, bindOkE] at h
      split at h <;> (rw [pureOkE] at h; cases h)
  | BranchNotZero r0 off =>
      simp only [tickStep] at h
      obtain ⟨v, hv⟩ := s.registers.get_ok_of_le r0 hb
      rw [hv, bindOkE] at h
      split at h <;> (rw [pureOkE] at h; cases h)
  | None => rw [show tickStep s .None = pure (.ShouldStop, s) from rfl, pureOkE] at h; cases h
  | Comment c => rw [show tickStep s (.Comment c) = pure (.ShouldStop, s) from rfl, pureOkE] at h; cases h

/-- C9.  Every instruction a successful parse produces has all its
register indices in 0..=31 (register tokens are `X0`..`X30` or the
zero-register mnemonic `XZR`, index 31); consequently `tick` on a
program whose instructions all come from the parse+validate path can
only fail with an `AlignmentError`, never a `RegisterError`. -/
theorem parse_bounded_and_only_alignment :
    (∀ (s : String) (i : Instruction), from_str s = some i → regsBounded i)
    ∧ (∀ (sim : Simulator) (e : ExecError) (s2 : Simulator),
        (∀ i ∈ sim.instructions, regsBounded i) →
        sim.tick = (.error e, s2) → ∃ a, e = .alignment a) := by
  constructor
  · intro s i h
    unfold from_str at h
    split at h
    · cases h
      trivial
    · split at h
      · cases h
        trivial
      · rw [Option.bind_eq_some] at h
        obtain ⟨j, hp, hval⟩ := h
        cases validate_some_eq hval
        exact parseInstrChars_bounded hp
  · intro sim e s2 hb ht
    unfold Simulator.tick at ht
    cases hE : tickE sim with
    | ok p =>
        obtain ⟨rs, s1⟩ := p
        rw [hE] at ht
        injection ht with ht1 ht2
        cases ht1
    | error e2 =>
        rw [hE] at ht
        injection ht with ht1 ht2
        cases Except.error.inj ht1
        unfold tickE at hE
        split at hE
        · refine tickStep_error_align ?_ hE
          exact hb _ (List.getElem_mem _)
        · rw [pureOkE] at hE
          cases hE

/-- Witness for C9: parsing `cbz XZR, #1` yields `BranchZero 31 1`,
whose register index is bounded, and a tick over a misaligned `ldur`
from a parsed program fails with an alignment error. -/
theorem parse_bounded_and_only_alignment_witness :
    regsBounded (Instruction.BranchZero 31 1)
    ∧ (∃ a, ExecError.alignment 5 = ExecError.alignment a) := by
  constructor
  · exact parse_bounded_and_only_alignment.1 "cbz XZR, #1" (.BranchZero 31 1) (by decide)
  · exact parse_bounded_and_only_alignment.2 loadMisSim (.alignment 5) loadMisSim
      (by intro i hi; rcases List.mem_singleton.mp hi with rfl; exact ⟨by decide, by decide⟩)
      (by decide)

end Sim
